import Mathlib

/-!
Verification of the kubeclipper `kcctl join` orchestrator
(`pkg/cli/join/join.go`) against its natural-language specification.

The Go code is shallowly embedded: every remote interaction performed via
the ssh/transfer collaborators is recorded as an `Event` in an explicit
trace, the outcome of each remote call is supplied by an oracle `Env`,
and the mutable program state (in-memory deploy config, the persisted
copy on disk, the local file cache) is threaded explicitly through a
`RunState`.  Collaborator code that lives outside the provided sources
(the `options.Agents` map helpers, `sshutils` wrappers, the fixed path
constants and the configuration template text) is modelled from the
specification; each such definition says so in its doc comment.
-/

namespace KcJoin

/-- Message-broker (MQ) section of the deploy configuration, mirroring the
fields of `DeployConfig.MQ` read by `join.go` (`ips`, `port`, `external`,
`user`, `secret`, `tls`, `ca`, `clientCert`, `clientKey`). -/
structure MQConfig where
  ips : List String
  port : Nat
  external : Bool
  user : String
  secret : String
  tls : Bool
  ca : String
  clientCert : String
  clientKey : String
deriving DecidableEq, Repr

/-- Operation-log section of the deploy configuration (`OpLog.Dir`,
`OpLog.Threshold`). -/
structure OpLogConfig where
  dir : String
  threshold : Nat
deriving DecidableEq, Repr

/-- Modelled from the spec: `options.Agents` is a mapping
region-name → list of agent addresses.  The Go value is a map, whose
iteration order is unspecified; we represent one concrete iteration
order as an association list, so a run of the orchestrator is
parameterised by the order the Go runtime happened to produce. -/
abbrev Regions := List (String × List String)

/-- The persisted deploy configuration (`Topology`): the fields of
`options.DeployConfig` that `join.go` reads or writes. -/
structure DeployConfig where
  serverIPs : List String
  agentRegions : Regions
  mq : MQConfig
  opLog : OpLogConfig
  pkg : String
  debug : Bool
  staticServerPort : Nat
deriving DecidableEq, Repr

/-- Modelled from the spec: `options.Agents.Exists` — whether an address
is already recorded under any region ("an address is a member of at most
one region in AgentRegions"). -/
def agentsExists (rs : Regions) (ip : String) : Bool :=
  rs.any fun p => p.2.contains ip

/-- Modelled from the spec: `options.Agents.Add` — "insert the address
under its region into the in-memory Topology.AgentRegions (creating the
region bucket if new)".  Addresses form a set per region, so inserting a
present address is a no-op. -/
def agentsAdd (rs : Regions) (region node : String) : Regions :=
  match rs with
  | [] => [(region, [node])]
  | (r, ns) :: rest =>
    if r = region then
      (r, if ns.contains node then ns else ns ++ [node]) :: rest
    else
      (r, ns) :: agentsAdd rest region node

/-- Modelled from the spec: `options.Agents.ListIP` — all agent addresses
across regions, in the represented iteration order. -/
def agentsListIP (rs : Regions) : List String :=
  (rs.map Prod.snd).flatten

/-- Whether an address is recorded under a specific region. -/
def agentInRegion (rs : Regions) (region ip : String) : Bool :=
  rs.any fun p => p.1 == region && p.2.contains ip

/-- Result of a remote command (`sshutils.Result`): the exit code and the
captured standard output, the two fields `join.go` inspects. -/
structure CmdResult where
  exitCode : Nat
  stdout : String
deriving DecidableEq, Repr

/-- Modelled from the spec: `sshutils.Result.Error()` — "any non-zero
exit status is treated as failure". -/
def retError (ret : CmdResult) : Except String Unit :=
  if ret.exitCode = 0 then Except.ok ()
  else Except.error ("command exited with code " ++ toString ret.exitCode)

/-- One observable external interaction of the orchestrator. -/
inductive Event where
  /-- `sshutils.SSHCmdWithSudo`: run a remote command on a node. -/
  | sshCmd (node cmd : String)
  /-- `utils.SendPackageV2`: push a local file to a list of nodes'
  destination directory, with an optional post-transfer hook command. -/
  | sendPackage (location : String) (nodes : List String) (dstDir : String)
      (hook : Option String)
  /-- `SSHConfig.DownloadSudo`: download a remote file from `host` to the
  local path `dst`. -/
  | downloadFile (host src dst : String)
  /-- `DeployConfig.Write`: attempt to persist the deploy configuration
  (the Topology) to durable storage. -/
  | persistTopology (cfg : DeployConfig)
deriving DecidableEq, Repr

/-- The oracle environment: outcomes of every external call.  `sudoOK`
models the `sudo.PreCheck` collaborator (outside the provided sources) as
a pass/fail gate; `freshUUID` supplies the value of the n-th call to
`uuid.New().String()`. -/
structure Env where
  sudoOK : Bool
  cmdRes : String → String → Except String CmdResult
  sendPkg : String → List String → String → Option String
  downloadRes : String → String → Option String
  writeRes : DeployConfig → Option String
  freshUUID : Nat → String

/-- The orchestrator's mutable state: the in-memory deploy config, the
copy last successfully persisted to disk, the candidate region map built
by the address expander, the set of local file paths that exist, the
count of generated identifiers, and the trace of external interactions. -/
structure RunState where
  cfg : DeployConfig
  persisted : DeployConfig
  agentRegion : Regions
  localFiles : List String
  uuidCtr : Nat
  trace : List Event
deriving Repr

/-- Append one event to the trace. -/
def emit (s : RunState) (e : Event) : RunState :=
  { s with trace := s.trace ++ [e] }

/-- `sshutils.SSHCmdWithSudo`: records the call and returns the oracle's
result (transport error or command result). -/
def sshCmdWithSudo (env : Env) (s : RunState) (node cmd : String) :
    Except String CmdResult × RunState :=
  (env.cmdRes node cmd, emit s (Event.sshCmd node cmd))

/-- `utils.SendPackageV2`: records the transfer and returns success or
the oracle's error. -/
def sendPackageV2 (env : Env) (s : RunState) (location : String)
    (nodes : List String) (dstDir : String) (hook : Option String) :
    Except String Unit × RunState :=
  let s := emit s (Event.sendPackage location nodes dstDir hook)
  match env.sendPkg location nodes dstDir with
  | some e => (Except.error e, s)
  | none => (Except.ok (), s)

/-- Go's early-return sequencing `if err != nil { return err }`: run the
continuation only when the first step succeeded. -/
def andThen (r : Except String Unit × RunState)
    (k : RunState → Except String Unit × RunState) :
    Except String Unit × RunState :=
  match r.1 with
  | Except.error e => (Except.error e, r.2)
  | Except.ok _ => k r.2

/-- Go's `errors.Wrap`: prefix an error with stage context. -/
def wrapErr (msg : String) (r : Except String Unit × RunState) :
    Except String Unit × RunState :=
  match r.1 with
  | Except.error e => (Except.error (msg ++ ": " ++ e), r.2)
  | Except.ok _ => r

/-- Modelled from the spec: Go's `filepath.Join` of two components
(without path cleaning, which the claims never exercise). -/
def filepathJoin (a b : String) : String := a ++ "/" ++ b

/-- Modelled from the spec: Go's `filepath.Base` — the last path
component. -/
def filepathBase (p : String) : String :=
  ((p.splitOn "/").getLast?).getD ""

/-- Modelled from the spec: Go's `filepath.Dir` — the path with its last
component removed. -/
def filepathDir (p : String) : String :=
  String.intercalate "/" ((p.splitOn "/").dropLast)

/-- Modelled from the spec: Go's `path.Base`. -/
def pathBase (p : String) : String := filepathBase p

/-- Modelled from the spec: `config.DefaultPkgPath`, the fixed package
staging directory on target nodes (constant text outside the provided
sources). -/
def defaultPkgPath : String := "/tmp/kc"

/-- Modelled from the spec: `options.DefaultKcAgentConfigPath`, the fixed
agent configuration directory. -/
def defaultKcAgentConfigPath : String := "/etc/kubeclipper-agent"

/-- Modelled from the spec: `options.DefaultCaPath`, the CA subdirectory
used for internally managed certificates. -/
def defaultCaPath : String := "pki"

/-- Modelled from the spec: `options.DefaultNatsPKIPath`, the broker PKI
subdirectory used for internally managed certificates. -/
def defaultNatsPKIPath : String := "pki/nats"

/-- Modelled from the spec: `config.KcAgentService`, the fixed service
unit descriptor text (constant outside the provided sources). -/
def kcAgentService : String := "[Unit] kc-agent"

/-- Modelled from the spec: `sshutils.WrapEcho` — a remote command that
writes the exact content to the exact remote path. -/
def wrapEcho (content dst : String) : String :=
  "echo \"" ++ content ++ "\" > " ++ dst

/-- The read-only liveness probe command run by `preCheckKcAgent`. -/
def kcAgentProbeCmd : String :=
  "systemctl --all --type service | grep -Fq kc-agent"

/-- The composite activation command run by `enableAgent`. -/
def kcAgentEnableCmd : String :=
  "systemctl daemon-reload && systemctl enable kc-agent --now"

/-- The named fields assembled by `getKcAgentConfigTemplateContent`
(the `data` map of `join.go` lines 303–333). -/
structure AgentConfigData where
  region : String
  agentID : String
  staticServerAddress : String
  logLevel : String
  mqServerEndpoints : List String
  mqExternal : Bool
  mqUser : String
  mqAuthToken : String
  mqTLS : Bool
  mqCaPath : String
  mqClientCertPath : String
  mqClientKeyPath : String
  opLogDir : String
  opLogThreshold : Nat
deriving DecidableEq, Repr

/-- Modelled from the spec: rendering of `config.KcAgentConfigTmpl`
(template text outside the provided sources) — a deterministic
serialization of the named field set into the agent configuration text. -/
def renderKcAgentConfigTmpl (d : AgentConfigData) : String :=
  "region: " ++ d.region ++
  "; agentID: " ++ d.agentID ++
  "; server: " ++ d.staticServerAddress ++
  "; logLevel: " ++ d.logLevel ++
  "; mq: " ++ String.intercalate "," d.mqServerEndpoints ++
  "; external: " ++ toString d.mqExternal ++
  "; user: " ++ d.mqUser ++
  "; token: " ++ d.mqAuthToken ++
  "; tls: " ++ toString d.mqTLS ++
  "; ca: " ++ d.mqCaPath ++
  "; cert: " ++ d.mqClientCertPath ++
  "; key: " ++ d.mqClientKeyPath ++
  "; opLogDir: " ++ d.opLogDir ++
  "; opLogThreshold: " ++ toString d.opLogThreshold

/-- The `data` map built by `getKcAgentConfigTemplateContent`
(`join.go:297-339`).  The freshly generated `uuid.New().String()` is
passed in as `agentID` (it is the oracle's `freshUUID` in the run model);
when TLS is off the three path fields are absent, rendered here as the
empty string. -/
def buildAgentConfigData (cfg : DeployConfig) (region agentID : String) :
    AgentConfigData :=
  { region := region
    agentID := agentID
    staticServerAddress :=
      "http://" ++ cfg.serverIPs.headD "" ++ ":" ++ toString cfg.staticServerPort
    logLevel := if cfg.debug then "debug" else "info"
    mqServerEndpoints := cfg.mq.ips.map fun v => v ++ ":" ++ toString cfg.mq.port
    mqExternal := cfg.mq.external
    mqUser := cfg.mq.user
    mqAuthToken := cfg.mq.secret
    mqTLS := cfg.mq.tls
    mqCaPath :=
      if cfg.mq.tls then
        if cfg.mq.external then cfg.mq.ca
        else filepathJoin (filepathJoin defaultKcAgentConfigPath defaultCaPath)
          (filepathBase cfg.mq.ca)
      else ""
    mqClientCertPath :=
      if cfg.mq.tls then
        if cfg.mq.external then cfg.mq.clientCert
        else filepathJoin (filepathJoin defaultKcAgentConfigPath defaultNatsPKIPath)
          (filepathBase cfg.mq.clientCert)
      else ""
    mqClientKeyPath :=
      if cfg.mq.tls then
        if cfg.mq.external then cfg.mq.clientKey
        else filepathJoin (filepathJoin defaultKcAgentConfigPath defaultNatsPKIPath)
          (filepathBase cfg.mq.clientKey)
      else ""
    opLogDir := cfg.opLog.dir
    opLogThreshold := cfg.opLog.threshold }

/-- `getKcAgentConfigTemplateContent` (`join.go:297-339`): render the
agent configuration for a region with a given generated identifier. -/
def getKcAgentConfigTemplateContent (cfg : DeployConfig)
    (region agentID : String) : String :=
  renderKcAgentConfigTmpl (buildAgentConfigData cfg region agentID)

/-- The download-if-missing loop of `sendCerts` (`join.go:349-359`): for
each file, check local existence (`sshutils.IsFileExist`); when missing,
download it from the first control-plane address
(`DownloadSudo(ServerIPs[0], file, file)`), recording the local path on
success and aborting on failure. -/
def fetchCertFiles (env : Env) (s : RunState) :
    List String → Except String Unit × RunState
  | [] => (Except.ok (), s)
  | file :: rest =>
    if s.localFiles.contains file then fetchCertFiles env s rest
    else
      let host := s.cfg.serverIPs.headD ""
      let s := emit s (Event.downloadFile host file file)
      match env.downloadRes host file with
      | some e => (Except.error ("download cert from server: " ++ e), s)
      | none =>
        fetchCertFiles env { s with localFiles := s.localFiles ++ [file] } rest

/-- The TLS push phase of `sendCerts` (`join.go:361-384`): when MQ TLS is
enabled, push CA, client certificate and client key to every candidate
agent address; destination depends on external vs managed certificate
mode.  The pushes carry no hook, distinguishing them from the binary
transfer. -/
def pushCertFiles (env : Env) (s : RunState) : Except String Unit × RunState :=
  if s.cfg.mq.tls then
    let destCa :=
      if s.cfg.mq.external then filepathDir s.cfg.mq.ca
      else filepathJoin defaultKcAgentConfigPath defaultCaPath
    let destCert :=
      if s.cfg.mq.external then filepathDir s.cfg.mq.clientCert
      else filepathJoin defaultKcAgentConfigPath defaultNatsPKIPath
    let destKey :=
      if s.cfg.mq.external then filepathDir s.cfg.mq.clientKey
      else filepathJoin defaultKcAgentConfigPath defaultNatsPKIPath
    andThen (sendPackageV2 env s s.cfg.mq.ca (agentsListIP s.agentRegion) destCa none)
      fun s =>
    andThen (sendPackageV2 env s s.cfg.mq.clientCert (agentsListIP s.agentRegion)
        destCert none) fun s =>
    sendPackageV2 env s s.cfg.mq.clientKey (agentsListIP s.agentRegion) destKey none
  else
    (Except.ok (), s)

/-- `sendCerts` (`join.go:341-387`): fetch the trust material to local
storage when missing, then — only when MQ TLS is enabled — push it to the
candidate agent nodes. -/
def sendCerts (env : Env) (s : RunState) : Except String Unit × RunState :=
  andThen (fetchCertFiles env s [s.cfg.mq.ca, s.cfg.mq.clientCert, s.cfg.mq.clientKey])
    fun s => pushCertFiles env s

/-- The post-transfer hook of the binary install (`join.go:230-234`). -/
def agentInstallHook (pkg : String) : String :=
  "rm -rf " ++ filepathJoin defaultPkgPath "kc" ++
  " && tar -xvf " ++ filepathJoin defaultPkgPath (pathBase pkg) ++
  " -C " ++ defaultPkgPath ++
  " && cp -rf " ++ filepathJoin defaultPkgPath "kc/bin/kubeclipper-agent" ++
  " /usr/local/bin/"

/-- Run a list of remote commands in order, stopping at the first
transport error or non-zero exit (`join.go:250-258`). -/
def runCmdList (env : Env) (s : RunState) (node : String) :
    List String → Except String Unit × RunState
  | [] => (Except.ok (), s)
  | cmd :: rest =>
    match sshCmdWithSudo env s node cmd with
    | (Except.error e, s) => (Except.error e, s)
    | (Except.ok ret, s) =>
      match retError ret with
      | Except.error e => (Except.error e, s)
      | Except.ok _ => runCmdList env s node rest

/-- `agentNodeFiles` (`join.go:228-260`): transfer and install the agent
binary, distribute the trust material, then write the service unit
descriptor and the rendered agent configuration via remote write
commands.  The generated identifier for the configuration is the next
value of the uuid oracle. -/
def agentNodeFiles (env : Env) (s : RunState) (region node : String) :
    Except String Unit × RunState :=
  let hook := agentInstallHook s.cfg.pkg
  andThen (wrapErr "SendPackageV2"
      (sendPackageV2 env s s.cfg.pkg [node] defaultPkgPath (some hook))) fun s =>
  andThen (sendCerts env s) fun s =>
  let agentConfig :=
    getKcAgentConfigTemplateContent s.cfg region (env.freshUUID s.uuidCtr)
  runCmdList env { s with uuidCtr := s.uuidCtr + 1 } node
    [wrapEcho kcAgentService "/usr/lib/systemd/system/kc-agent.service",
     "mkdir -pv /etc/kubeclipper-agent ",
     wrapEcho agentConfig "/etc/kubeclipper-agent/kubeclipper-agent.yaml"]

/-- `DeployConfig.Write` (called from `enableAgent`): attempt to persist
the in-memory deploy configuration; on success the durable copy becomes
the in-memory one. -/
def deployConfigWrite (env : Env) (s : RunState) : Except String Unit × RunState :=
  let s := emit s (Event.persistTopology s.cfg)
  match env.writeRes s.cfg with
  | some e => (Except.error e, s)
  | none => (Except.ok (), { s with persisted := s.cfg })

/-- `enableAgent` (`join.go:262-274`): activate the agent service with
one composite remote command; on success record the node under its
region in the in-memory topology and immediately persist it. -/
def enableAgent (env : Env) (s : RunState) (region node : String) :
    Except String Unit × RunState :=
  match sshCmdWithSudo env s node kcAgentEnableCmd with
  | (Except.error e, s) => (Except.error ("enable kc agent: " ++ e), s)
  | (Except.ok ret, s) =>
    match retError ret with
    | Except.error e => (Except.error ("enable kc agent: " ++ e), s)
    | Except.ok _ =>
      let s := { s with cfg :=
        { s.cfg with agentRegions := agentsAdd s.cfg.agentRegions region node } }
      deployConfigWrite env s

/-- The per-node body of `runJoinAgentNode`'s loop: provision the node's
files, then activate and persist it. -/
def joinOneNode (env : Env) (s : RunState) (region node : String) :
    Except String Unit × RunState :=
  andThen (agentNodeFiles env s region node) fun s =>
    enableAgent env s region node

/-- The nested region/address loop of `runJoinAgentNode`, flattened into
the sequence of (region, address) pairs it visits. -/
def processNodes (env : Env) (s : RunState) :
    List (String × String) → Except String Unit × RunState
  | [] => (Except.ok (), s)
  | (region, node) :: rest =>
    andThen (joinOneNode env s region node) fun s => processNodes env s rest

/-- The visit sequence of the nested loop `for region, agents := range
c.agentRegion { for _, agent := range agents { ... } }` for one concrete
map iteration order. -/
def joinSequence (rs : Regions) : List (String × String) :=
  (rs.map fun p => p.2.map fun a => (p.1, a)).flatten

/-- `runJoinAgentNode` (`join.go:191-206`): provision and activate every
candidate agent node, strictly sequentially, in the visit order of the
represented map iteration. -/
def runJoinAgentNode (env : Env) (s : RunState) : Except String Unit × RunState :=
  processNodes env s (joinSequence s.agentRegion)

/-- `checkServerNode` (`join.go:285-287`): always succeeds. -/
def checkServerNode (_node : String) : Except String Unit :=
  Except.ok ()

/-- The loop body of `runJoinServerNode` over the known server
addresses. -/
def checkServerNodes : List String → Except String Unit
  | [] => Except.ok ()
  | node :: rest =>
    match checkServerNode node with
    | Except.error e => Except.error e
    | Except.ok _ => checkServerNodes rest

/-- `runJoinServerNode` (`join.go:276-283`): check every known server
address; performs no remote call and no state change. -/
def runJoinServerNode (s : RunState) : Except String Unit × RunState :=
  (checkServerNodes s.cfg.serverIPs, s)

/-- `RunJoinNode` (`join.go:179-189`): the server path, then the agent
path, each failure wrapped with its stage context. -/
def RunJoinNode (env : Env) (s : RunState) : Except String Unit × RunState :=
  match runJoinServerNode s with
  | (Except.error e, s) => (Except.error ("join server node failed: " ++ e), s)
  | (Except.ok _, s) =>
    match runJoinAgentNode env s with
    | (Except.error e, s) => (Except.error ("join agent node failed: " ++ e), s)
    | (Except.ok _, s) => (Except.ok (), s)

/-- `RunJoinFunc` (`join.go:170-177`). -/
def RunJoinFunc (env : Env) (s : RunState) : Except String Unit × RunState :=
  RunJoinNode env s

/-- `preCheckKcAgent` (`join.go:208-226`): fail when the address is
already recorded in the topology; otherwise run the read-only liveness
probe and fail on transport error or on a positive result (exit code 0
with non-empty output). -/
def preCheckKcAgent (env : Env) (s : RunState) (ip : String) : Bool × RunState :=
  if agentsExists s.cfg.agentRegions ip then (false, s)
  else
    match sshCmdWithSudo env s ip kcAgentProbeCmd with
    | (Except.error _, s) => (false, s)
    | (Except.ok ret, s) =>
      if ret.exitCode = 0 && ret.stdout != "" then (false, s) else (true, s)

/-- The per-address loop of `preCheck` (`join.go:136-140`). -/
def preCheckAgents (env : Env) (s : RunState) : List String → Bool × RunState
  | [] => (true, s)
  | ip :: rest =>
    match preCheckKcAgent env s ip with
    | (false, s) => (false, s)
    | (true, s) => preCheckAgents env s rest

/-- `preCheck` (`join.go:131-143`): the sudo pre-check gate (modelled
from the spec as an oracle, since `sudo.PreCheck` is outside the
provided sources), then the per-address membership and liveness
checks. -/
def preCheck (env : Env) (s : RunState) : Bool × RunState :=
  if env.sudoOK then preCheckAgents env s (agentsListIP s.agentRegion)
  else (false, s)

/-- The completed command options: the raw `--agent` tokens, the region
map produced from them by the address expander, and the loaded deploy
configuration. -/
structure JoinOptions where
  agents : List String
  agentRegion : Regions
  deployConfig : DeployConfig
deriving Repr

/-- `ValidateArgs` (`join.go:158-168`). -/
def ValidateArgs (o : JoinOptions) : Except String Unit :=
  if o.agents.length = 0 then
    Except.error "must specified at least one agent node"
  else if o.deployConfig.serverIPs.length = 0 then
    Except.error "join an agent node requires specifying at least one server node"
  else
    Except.ok ()

/-- The state at the start of a run: the in-memory and persisted deploy
configurations coincide (the topology was just loaded from disk), the
trace is empty, and `localFiles` lists the local paths that already
exist. -/
def initState (o : JoinOptions) (localFiles : List String) : RunState :=
  { cfg := o.deployConfig
    persisted := o.deployConfig
    agentRegion := o.agentRegion
    localFiles := localFiles
    uuidCtr := 0
    trace := [] }

deriving instance DecidableEq for Except

/-- Outcome of the whole `join` command. -/
inductive JoinOutcome where
  | validationError (msg : String)
  | preflightFailed
  | runResult (r : Except String Unit)
deriving DecidableEq, Repr

/-- The `join` command body (`join.go:115-122`), starting after
`Complete` (which only parses local input and performs no remote call):
validate the arguments, run the preflight gate, then the join itself. -/
def cmdJoinRun (env : Env) (o : JoinOptions) (localFiles : List String) :
    JoinOutcome × RunState :=
  let s := initState o localFiles
  match ValidateArgs o with
  | Except.error e => (JoinOutcome.validationError e, s)
  | Except.ok _ =>
    match preCheck env s with
    | (false, s) => (JoinOutcome.preflightFailed, s)
    | (true, s) =>
      match RunJoinFunc env s with
      | (r, s) => (JoinOutcome.runResult r, s)

/-- Whether an Except result is an error. -/
def isErr {α : Type} : Except String α → Bool
  | Except.error _ => true
  | Except.ok _ => false

/-- Whether an event is the read-only kc-agent liveness probe. -/
def isProbeEvent : Event → Bool
  | Event.sshCmd _ cmd => cmd == kcAgentProbeCmd
  | _ => false

/-- Number of download events in a trace whose local destination is `p`. -/
def dlCount (p : String) (t : List Event) : Nat :=
  (t.filter fun e =>
    match e with
    | Event.downloadFile _ _ dst => dst == p
    | _ => false).length

/-- Every download event in scope fetches from host `h`. -/
def downloadsFrom (h : String) : Event → Bool
  | Event.downloadFile h' _ _ => h' == h
  | _ => true

/-- Download potential of a state for path `p`: downloads already recorded
plus one more allowed when `p` is not yet in local storage. -/
def dlPotential (p : String) (s : RunState) : Nat :=
  dlCount p s.trace + (if s.localFiles.contains p then 0 else 1)

/-- A trust-material push: the only `SendPackageV2` calls issued without a
post-transfer hook are the three cert pushes of `sendCerts`. -/
def isCertPush : Event → Bool
  | Event.sendPackage _ _ _ none => true
  | _ => false

/-- The configurations carried by the persist events of a trace, in
order. -/
def persistCfgs (t : List Event) : List DeployConfig :=
  t.filterMap fun e =>
    match e with
    | Event.persistTopology c => some c
    | _ => none

/-- Membership growth between two topologies: every agent address stays
recorded under its region. -/
def regionsGrow (c c' : DeployConfig) : Prop :=
  ∀ r ip, agentInRegion c.agentRegions r ip = true →
    agentInRegion c'.agentRegions r ip = true

/-- `c` agrees with `base` on every field other than `agentRegions`. -/
def frameMatch (base c : DeployConfig) : Prop :=
  c = { base with agentRegions := c.agentRegions }

/-- The nodes visited by the provisioning loop, recovered from the trace:
one binary transfer (a `sendPackage` with a hook) is issued per node, as
its first step. -/
def processedNodes (t : List Event) : List String :=
  t.filterMap fun e =>
    match e with
    | Event.sendPackage _ nodes _ (some _) => nodes.head?
    | _ => none

/-- The addresses the visit sequence schedules for one region. -/
def regionSeq (rs : Regions) (r : String) : List String :=
  (joinSequence rs).filterMap fun p => if p.1 = r then some p.2 else none

/-- Test fixture: a broker configuration with managed TLS. -/
def mqFix : MQConfig :=
  { ips := ["10.0.0.1"], port := 9889, external := false, user := "admin",
    secret := "sec", tls := true, ca := "/root/.kc/pki/ca.crt",
    clientCert := "/root/.kc/pki/nats/c.crt",
    clientKey := "/root/.kc/pki/nats/c.key" }

/-- Test fixture: a deploy configuration with one server and no agents. -/
def cfgFix : DeployConfig :=
  { serverIPs := ["10.0.0.1"], agentRegions := [], mq := mqFix,
    opLog := { dir := "/var/log/kc", threshold := 1048576 },
    pkg := "/root/kc.tar.gz", debug := false, staticServerPort := 8081 }

/-- Test fixture: like `cfgFix` but with a different package path and a
pre-recorded agent — the fields the configuration renderer ignores. -/
def cfgFixAlt : DeployConfig :=
  { cfgFix with pkg := "/opt/other.tar.gz",
                agentRegions := [("r9", ["9.9.9.9"])] }

/-- Test fixture: like `cfgFix` but with MQ TLS disabled. -/
def cfgNoTLS : DeployConfig :=
  { cfgFix with mq := { mqFix with tls := false } }

/-- Test fixture: like `cfgFix` but with the agent `2.2.2.2` already
recorded in the topology. -/
def cfgMember : DeployConfig :=
  { cfgFix with agentRegions := [("r1", ["2.2.2.2"])] }

/-- Test fixture: like `cfgFix` but with no server addresses. -/
def cfgNoServer : DeployConfig :=
  { cfgFix with serverIPs := [] }

/-- Test fixture: an oracle under which every remote operation succeeds
(the liveness probe finds no conflicting service: exit code 1, empty
output). -/
def envOK : Env :=
  { sudoOK := true
    cmdRes := fun _ cmd =>
      if cmd = kcAgentProbeCmd then Except.ok { exitCode := 1, stdout := "" }
      else Except.ok { exitCode := 0, stdout := "" }
    sendPkg := fun _ _ _ => none
    downloadRes := fun _ _ => none
    writeRes := fun _ => none
    freshUUID := fun n => "uuid-" ++ toString n }

/-- Test fixture: like `envOK` except that the activation command fails
on node `2.2.2.2` with exit code 1. -/
def envFailEnable : Env :=
  { envOK with cmdRes := fun node cmd =>
      if cmd = kcAgentProbeCmd then Except.ok { exitCode := 1, stdout := "" }
      else if node = "2.2.2.2" && cmd = kcAgentEnableCmd then
        Except.ok { exitCode := 1, stdout := "" }
      else Except.ok { exitCode := 0, stdout := "" } }

/-- Test fixture: like `envOK` except that the liveness probe on
`1.1.1.1` reports a conflicting kc-agent service (exit code 0, non-empty
output). -/
def envConflict : Env :=
  { envOK with cmdRes := fun node cmd =>
      if cmd = kcAgentProbeCmd then
        if node = "1.1.1.1" then Except.ok { exitCode := 0, stdout := "kc-agent.service" }
        else Except.ok { exitCode := 1, stdout := "" }
      else Except.ok { exitCode := 0, stdout := "" } }

/-- Test fixture: two candidate agents in one region, fresh topology. -/
def optsTwo : JoinOptions :=
  { agents := ["r1:1.1.1.1,2.2.2.2"]
    agentRegion := [("r1", ["1.1.1.1", "2.2.2.2"])]
    deployConfig := cfgFix }

/-- Test fixture: two candidate agents of which the second is already a
topology member. -/
def optsMember : JoinOptions :=
  { optsTwo with deployConfig := cfgMember }

/-- Test fixture: one candidate agent, MQ TLS disabled. -/
def optsNoTLS : JoinOptions :=
  { agents := ["r1:1.1.1.1"]
    agentRegion := [("r1", ["1.1.1.1"])]
    deployConfig := cfgNoTLS }

/-- Test fixture: one candidate agent, no server addresses known. -/
def optsNoServer : JoinOptions :=
  { agents := ["r1:1.1.1.1"]
    agentRegion := [("r1", ["1.1.1.1"])]
    deployConfig := cfgNoServer }

/-- Test fixture: two regions in one iteration order. -/
def optsRegAB : JoinOptions :=
  { agents := ["ra:1.1.1.1", "rb:2.2.2.2"]
    agentRegion := [("ra", ["1.1.1.1"]), ("rb", ["2.2.2.2"])]
    deployConfig := cfgFix }

/-- Test fixture: the same two regions in the other iteration order. -/
def optsRegBA : JoinOptions :=
  { optsRegAB with agentRegion := [("rb", ["2.2.2.2"]), ("ra", ["1.1.1.1"])] }

/-- Characterization of every event the orchestrator can emit, relative
to the run's (constant) server list and broker configuration: remote
commands and persist attempts are unrestricted, package transfers
without a post-extract hook happen only when MQ TLS is enabled (they are
the trust-material pushes), and downloads fetch from the first
control-plane address. -/
def eventOK (c : DeployConfig) : Event → Bool
  | Event.sshCmd _ _ => true
  | Event.sendPackage _ _ _ hook => hook.isSome || c.mq.tls
  | Event.downloadFile h _ _ => h == c.serverIPs.headD ""
  | Event.persistTopology _ => true

/-- The configuration carried by the last persist event of a trace, or
the initially loaded one when nothing has been persisted yet. -/
def lastPersisted (init : DeployConfig) (t : List Event) : DeployConfig :=
  ((persistCfgs t).getLast?).getD init

/-- Invariant of the append-only persistence discipline: the persisted
snapshots grow monotonically from the loaded topology, every snapshot and
the in-memory configuration agree with the loaded topology outside
`agentRegions`, and the in-memory configuration extends the last
snapshot. -/
def persistInv (init : DeployConfig) (s : RunState) : Prop :=
  List.Chain' regionsGrow (init :: persistCfgs s.trace) ∧
  (∀ c ∈ persistCfgs s.trace, frameMatch init c) ∧
  frameMatch init s.cfg ∧
  regionsGrow (lastPersisted init s.trace) s.cfg

/-! ## Theorems -/

/-- The server-node check loop succeeds on every input. -/
theorem checkServerNodes_ok (l : List String) : checkServerNodes l = Except.ok () := by
  induction l with
  | nil => rfl
  | cons n rest ih => simpa [checkServerNodes, checkServerNode] using ih

/-- C10: the server-node join path is a no-op — `runJoinServerNode`
always returns success and leaves the state untouched, so `RunJoinNode`
reduces to the agent path and its "join server node failed" branch is
unreachable. -/
theorem serverJoin_noop :
    (∀ s : RunState, runJoinServerNode s = (Except.ok (), s)) ∧
    (∀ (env : Env) (s : RunState),
      RunJoinNode env s =
        match runJoinAgentNode env s with
        | (Except.error e, s') =>
          (Except.error ("join agent node failed: " ++ e), s')
        | (Except.ok _, s') => (Except.ok (), s')) := by
  constructor
  · intro s
    simp [runJoinServerNode, checkServerNodes_ok]
  · intro env s
    simp [RunJoinNode, runJoinServerNode, checkServerNodes_ok]

/-- C9: the rendered agent configuration is a deterministic function of
the region, the generated identifier, the first control-plane address,
the static server port, the debug flag, the broker configuration and the
operation-log configuration; it reads no other state. -/
theorem configRender_deterministic (c c' : DeployConfig) (region agentID : String)
    (hsrv : c.serverIPs.headD "" = c'.serverIPs.headD "")
    (hport : c.staticServerPort = c'.staticServerPort)
    (hdebug : c.debug = c'.debug)
    (hmq : c.mq = c'.mq)
    (hlog : c.opLog = c'.opLog) :
    getKcAgentConfigTemplateContent c region agentID =
      getKcAgentConfigTemplateContent c' region agentID := by
  unfold getKcAgentConfigTemplateContent buildAgentConfigData
  rw [hsrv, hport, hdebug, hmq, hlog]

/-- C9 witness: two deploy configurations differing in package path and
recorded agents render the same configuration text. -/
theorem configRender_deterministic_witness :
    getKcAgentConfigTemplateContent cfgFix "r1" "id-0" =
      getKcAgentConfigTemplateContent cfgFixAlt "r1" "id-0" :=
  configRender_deterministic cfgFix cfgFixAlt "r1" "id-0" rfl rfl rfl rfl rfl

/-- C7: with agent nodes requested but zero control-plane addresses
known, the command fails validation before any other step: no event is
recorded and the persisted topology is untouched. -/
theorem validation_noServers (env : Env) (o : JoinOptions) (lf : List String)
    (hag : o.agents ≠ []) (hsrv : o.deployConfig.serverIPs = []) :
    (cmdJoinRun env o lf).1 =
      JoinOutcome.validationError
        "join an agent node requires specifying at least one server node" ∧
    (cmdJoinRun env o lf).2.trace = [] ∧
    (cmdJoinRun env o lf).2.persisted = o.deployConfig := by
  have h1 : o.agents.length ≠ 0 := by
    simpa [List.length_eq_zero] using hag
  simp [cmdJoinRun, ValidateArgs, initState, h1, hsrv]

/-- C7 witness: the concrete no-server invocation fails validation with
an empty trace. -/
theorem validation_noServers_witness :
    (cmdJoinRun envOK optsNoServer []).1 =
      JoinOutcome.validationError
        "join an agent node requires specifying at least one server node" ∧
    (cmdJoinRun envOK optsNoServer []).2.trace = [] ∧
    (cmdJoinRun envOK optsNoServer []).2.persisted = optsNoServer.deployConfig :=
  validation_noServers envOK optsNoServer [] (by decide) rfl

/-- One preflight membership/liveness check either leaves the state
untouched or only appends the probe event. -/
theorem preCheckKcAgent_snd (env : Env) (s : RunState) (ip : String) :
    (preCheckKcAgent env s ip).2 = s ∨
    (preCheckKcAgent env s ip).2 = emit s (Event.sshCmd ip kcAgentProbeCmd) := by
  unfold preCheckKcAgent sshCmdWithSudo
  by_cases h : agentsExists s.cfg.agentRegions ip = true
  · rw [if_pos h]
    exact Or.inl rfl
  · rw [if_neg h]
    cases env.cmdRes ip kcAgentProbeCmd with
    | error e => exact Or.inr rfl
    | ok ret =>
      dsimp only
      by_cases hc : (ret.exitCode = 0 && ret.stdout != "") = true
      · rw [if_pos hc]
        exact Or.inr rfl
      · rw [if_neg hc]
        exact Or.inr rfl

/-- One preflight membership/liveness check keeps the deploy
configuration, the persisted topology and the candidate map unchanged,
and emits only probe events. -/
theorem preCheckKcAgent_state (env : Env) (s : RunState) (ip : String) :
    (preCheckKcAgent env s ip).2.cfg = s.cfg ∧
    (preCheckKcAgent env s ip).2.persisted = s.persisted ∧
    (preCheckKcAgent env s ip).2.agentRegion = s.agentRegion ∧
    (s.trace.all isProbeEvent = true →
      (preCheckKcAgent env s ip).2.trace.all isProbeEvent = true) := by
  rcases preCheckKcAgent_snd env s ip with h | h <;> rw [h]
  · exact ⟨rfl, rfl, rfl, fun h' => h'⟩
  · refine ⟨rfl, rfl, rfl, fun h' => ?_⟩
    simp [emit, List.all_append, h', isProbeEvent]

/-- The preflight loop keeps the deploy configuration, the persisted
topology and the candidate map unchanged, and emits only probe events. -/
theorem preCheckAgents_state (env : Env) (l : List String) :
    ∀ s : RunState,
      (preCheckAgents env s l).2.cfg = s.cfg ∧
      (preCheckAgents env s l).2.persisted = s.persisted ∧
      (preCheckAgents env s l).2.agentRegion = s.agentRegion ∧
      (s.trace.all isProbeEvent = true →
        (preCheckAgents env s l).2.trace.all isProbeEvent = true) := by
  induction l with
  | nil => intro s; exact ⟨rfl, rfl, rfl, fun h => h⟩
  | cons a rest ih =>
    intro s
    have hst := preCheckKcAgent_state env s a
    unfold preCheckAgents
    cases hpk : preCheckKcAgent env s a with
    | mk b s' =>
      rw [hpk] at hst
      cases b with
      | false => exact ⟨hst.1, hst.2.1, hst.2.2.1, hst.2.2.2⟩
      | true =>
        have hr := ih s'
        exact ⟨hr.1.trans hst.1, (hr.2.1).trans hst.2.1,
          (hr.2.2.1).trans hst.2.2.1, fun h => hr.2.2.2 (hst.2.2.2 h)⟩

/-- A positive liveness probe makes `preCheckKcAgent` fail, whatever the
state. -/
theorem preCheckKcAgent_probePositive (env : Env) (ip : String) (r : CmdResult)
    (hres : env.cmdRes ip kcAgentProbeCmd = Except.ok r)
    (hexit : r.exitCode = 0) (hout : r.stdout ≠ "") :
    ∀ s : RunState, (preCheckKcAgent env s ip).1 = false := by
  intro s
  unfold preCheckKcAgent sshCmdWithSudo
  split
  · rfl
  · simp only [hres, hexit, bne]
    simp [hout]

/-- An address already recorded in the topology makes `preCheckKcAgent`
fail. -/
theorem preCheckKcAgent_member (env : Env) (s : RunState) (ip : String)
    (h : agentsExists s.cfg.agentRegions ip = true) :
    (preCheckKcAgent env s ip).1 = false := by
  unfold preCheckKcAgent
  simp [h]

/-- If some listed address always fails its per-address check (for every
state sharing the loop's deploy configuration), the whole preflight loop
fails. -/
theorem preCheckAgents_false (env : Env) (l : List String) :
    ∀ (s : RunState) (ip : String), ip ∈ l →
      (∀ s' : RunState, s'.cfg = s.cfg → (preCheckKcAgent env s' ip).1 = false) →
      (preCheckAgents env s l).1 = false := by
  induction l with
  | nil => intro s ip hmem; cases hmem
  | cons a rest ih =>
    intro s ip hmem hfalse
    have hst := preCheckKcAgent_state env s a
    unfold preCheckAgents
    cases hpk : preCheckKcAgent env s a with
    | mk b s' =>
      rw [hpk] at hst
      cases b with
      | false => rfl
      | true =>
        cases hmem with
        | head =>
          have := hfalse s rfl
          rw [hpk] at this
          cases this
        | tail _ hmem' =>
          exact ih s' ip hmem' fun s'' hcfg => hfalse s'' (hcfg.trans hst.1)

/-- The whole preflight keeps the persisted topology and the deploy
configuration unchanged and emits only probe events. -/
theorem preCheck_state (env : Env) (s : RunState) :
    (preCheck env s).2.persisted = s.persisted ∧
    (preCheck env s).2.cfg = s.cfg ∧
    (s.trace.all isProbeEvent = true →
      (preCheck env s).2.trace.all isProbeEvent = true) := by
  unfold preCheck
  by_cases h : env.sudoOK = true
  · rw [if_pos h]
    have hst := preCheckAgents_state env (agentsListIP s.agentRegion) s
    exact ⟨hst.2.1, hst.1, hst.2.2.2⟩
  · rw [if_neg h]
    exact ⟨rfl, rfl, fun h' => h'⟩

/-- When validation passes and the preflight gate reports failure, the
command stops with `preflightFailed`, leaves the persisted topology at
its loaded value, and has issued only read-only probe commands. -/
theorem cmdJoinRun_preflightFalse (env : Env) (o : JoinOptions) (lf : List String)
    (hv : ValidateArgs o = Except.ok ())
    (hpc : (preCheck env (initState o lf)).1 = false) :
    (cmdJoinRun env o lf).1 = JoinOutcome.preflightFailed ∧
    (cmdJoinRun env o lf).2.persisted = o.deployConfig ∧
    (cmdJoinRun env o lf).2.trace.all isProbeEvent = true := by
  have hst := preCheck_state env (initState o lf)
  unfold cmdJoinRun
  rw [hv]
  dsimp only
  cases hp : preCheck env (initState o lf) with
  | mk b s' =>
    rw [hp] at hpc hst
    cases b with
    | false =>
      refine ⟨rfl, ?_, ?_⟩
      · exact hst.1
      · exact hst.2.2 rfl
    | true => cases hpc

/-- C3: a positive liveness probe (exit code 0, non-empty output — the
conflicting kc-agent service is present) makes `preCheckKcAgent` return
failure in every state, and the join run aborts during preflight: the
persisted topology is unchanged and only read-only probe commands have
been issued. -/
theorem conflictingService_failsPreflight (env : Env) (o : JoinOptions)
    (lf : List String) (ip : String) (r : CmdResult)
    (hip : ip ∈ agentsListIP o.agentRegion)
    (hres : env.cmdRes ip kcAgentProbeCmd = Except.ok r)
    (hexit : r.exitCode = 0) (hout : r.stdout ≠ "") :
    (∀ s : RunState, (preCheckKcAgent env s ip).1 = false) ∧
    ((cmdJoinRun env o lf).1 = JoinOutcome.preflightFailed ∨
      ∃ msg, (cmdJoinRun env o lf).1 = JoinOutcome.validationError msg) ∧
    (cmdJoinRun env o lf).2.persisted = o.deployConfig ∧
    (cmdJoinRun env o lf).2.trace.all isProbeEvent = true := by
  have hpkfalse := preCheckKcAgent_probePositive env ip r hres hexit hout
  refine ⟨hpkfalse, ?_⟩
  cases hv : ValidateArgs o with
  | error e =>
    have h1 : cmdJoinRun env o lf = (JoinOutcome.validationError e, initState o lf) := by
      unfold cmdJoinRun
      rw [hv]
    rw [h1]
    exact ⟨Or.inr ⟨e, rfl⟩, rfl, rfl⟩
  | ok u =>
    have hv' : ValidateArgs o = Except.ok () := hv
    have hpc : (preCheck env (initState o lf)).1 = false := by
      unfold preCheck
      by_cases hs : env.sudoOK = true
      · rw [if_pos hs]
        exact preCheckAgents_false env (agentsListIP o.agentRegion)
          (initState o lf) ip hip (fun s' _ => hpkfalse s')
      · rw [if_neg hs]
    have hmain := cmdJoinRun_preflightFalse env o lf hv' hpc
    exact ⟨Or.inl hmain.1, hmain.2.1, hmain.2.2⟩

/-- C3 witness: a conflicting kc-agent service on 1.1.1.1 aborts the
concrete two-node run in preflight. -/
theorem conflictingService_failsPreflight_witness :
    (preCheckKcAgent envConflict (initState optsTwo []) "1.1.1.1").1 = false ∧
    ((cmdJoinRun envConflict optsTwo []).1 = JoinOutcome.preflightFailed ∨
      ∃ msg, (cmdJoinRun envConflict optsTwo []).1 = JoinOutcome.validationError msg) ∧
    (cmdJoinRun envConflict optsTwo []).2.persisted = optsTwo.deployConfig := by
  have h := conflictingService_failsPreflight envConflict optsTwo [] "1.1.1.1"
    { exitCode := 0, stdout := "kc-agent.service" }
    (by decide) (by decide) rfl (by decide)
  exact ⟨h.1 (initState optsTwo []), h.2.1, h.2.2.1⟩

/-- C2 (amended): a candidate address already recorded in the topology
makes the run abort during preflight with the persisted topology
unchanged and no mutating operation performed — though read-only probe
commands may already have been issued for earlier candidates. -/
theorem memberAddress_abortsPreflight (env : Env) (o : JoinOptions)
    (lf : List String) (ip : String)
    (hip : ip ∈ agentsListIP o.agentRegion)
    (hmem : agentsExists o.deployConfig.agentRegions ip = true)
    (hv : ValidateArgs o = Except.ok ()) :
    (cmdJoinRun env o lf).1 = JoinOutcome.preflightFailed ∧
    (cmdJoinRun env o lf).2.persisted = o.deployConfig ∧
    (cmdJoinRun env o lf).2.trace.all isProbeEvent = true := by
  have hpc : (preCheck env (initState o lf)).1 = false := by
    unfold preCheck
    by_cases hs : env.sudoOK = true
    · rw [if_pos hs]
      refine preCheckAgents_false env (agentsListIP o.agentRegion)
        (initState o lf) ip hip ?_
      intro s' hcfg
      exact preCheckKcAgent_member env s' ip (by rw [hcfg]; exact hmem)
    · rw [if_neg hs]
  exact cmdJoinRun_preflightFalse env o lf hv hpc

/-- C2 witness: the concrete member-address run aborts in preflight with
the persisted topology unchanged and only probe events issued. -/
theorem memberAddress_abortsPreflight_witness :
    (cmdJoinRun envOK optsMember []).1 = JoinOutcome.preflightFailed ∧
    (cmdJoinRun envOK optsMember []).2.persisted = optsMember.deployConfig ∧
    (cmdJoinRun envOK optsMember []).2.trace.all isProbeEvent = true :=
  memberAddress_abortsPreflight envOK optsMember [] "2.2.2.2"
    (by decide) (by decide) (by decide)

/-- C2 counterexample: in the member-address run over candidates 1.1.1.1
and 2.2.2.2 (the latter already recorded), the preflight abort has
nevertheless issued a transport call — the liveness probe of 1.1.1.1 —
refuting the claim that no transport calls are issued. -/
theorem memberAddress_transportCall :
    agentsExists optsMember.deployConfig.agentRegions "2.2.2.2" = true ∧
    (cmdJoinRun envOK optsMember []).1 = JoinOutcome.preflightFailed ∧
    (cmdJoinRun envOK optsMember []).2.trace =
      [Event.sshCmd "1.1.1.1" kcAgentProbeCmd] := by
  decide

/-- Decompose a sequencing step that succeeded. -/
theorem andThen_ok (r : Except String Unit × RunState)
    (k : RunState → Except String Unit × RunState)
    (h : r.1 = Except.ok ()) : andThen r k = k r.2 := by
  unfold andThen
  rw [h]

/-- Decompose a sequencing step that failed. -/
theorem andThen_err (r : Except String Unit × RunState)
    (k : RunState → Except String Unit × RunState) (e : String)
    (h : r.1 = Except.error e) : andThen r k = (Except.error e, r.2) := by
  unfold andThen
  rw [h]

/-- A state predicate preserved by both steps is preserved by their
sequencing. -/
theorem andThen_pres (P : RunState → Prop) (r : Except String Unit × RunState)
    (k : RunState → Except String Unit × RunState)
    (hr : P r.2) (hk : ∀ t, P t → P (k t).2) : P (andThen r k).2 := by
  unfold andThen
  cases h : r.1 with
  | error e => exact hr
  | ok u => exact hk r.2 hr

/-- Error wrapping keeps the state. -/
theorem wrapErr_snd (msg : String) (r : Except String Unit × RunState) :
    (wrapErr msg r).2 = r.2 := by
  unfold wrapErr
  cases h : r.1 with
  | error e => rfl
  | ok u => rfl

/-- Error wrapping keeps success. -/
theorem wrapErr_ok (msg : String) (r : Except String Unit × RunState)
    (h : r.1 = Except.ok ()) : wrapErr msg r = r := by
  unfold wrapErr
  rw [h]

/-- A package transfer only appends its event. -/
theorem sendPackageV2_snd (env : Env) (s : RunState) (location : String)
    (nodes : List String) (dstDir : String) (hook : Option String) :
    (sendPackageV2 env s location nodes dstDir hook).2 =
      emit s (Event.sendPackage location nodes dstDir hook) := by
  unfold sendPackageV2
  cases env.sendPkg location nodes dstDir with
  | some e => rfl
  | none => rfl

/-- Membership characterization of the region map. -/
theorem agentsExists_iff (rs : Regions) (ip : String) :
    agentsExists rs ip = true ↔ ∃ r ns, (r, ns) ∈ rs ∧ ip ∈ ns := by
  constructor
  · intro h
    obtain ⟨p, hp, hip⟩ := List.any_eq_true.mp h
    exact ⟨p.1, p.2, hp, List.elem_iff.mp hip⟩
  · rintro ⟨r, ns, hmem, hip⟩
    exact List.any_eq_true.mpr ⟨(r, ns), hmem, List.elem_iff.mpr hip⟩

/-- Unfolding membership over a cons cell of the region map. -/
theorem agentsExists_cons (r : String) (ns : List String) (rest : Regions)
    (ip : String) :
    agentsExists ((r, ns) :: rest) ip = (ns.contains ip || agentsExists rest ip) := by
  simp [agentsExists, List.any_cons]

/-- Membership after an add: the previously recorded addresses plus the
added node. -/
theorem mem_agentsAdd (rs : Regions) (region node ip : String) :
    agentsExists (agentsAdd rs region node) ip = true ↔
      (agentsExists rs ip = true ∨ ip = node) := by
  induction rs with
  | nil =>
    constructor
    · intro h
      rw [agentsExists_iff] at h
      obtain ⟨r, ns, hmem, hip⟩ := h
      cases hmem with
      | head => exact Or.inr (List.mem_singleton.mp hip)
      | tail _ hmem2 => cases hmem2
    · rintro (h | rfl)
      · simp [agentsExists] at h
      · exact (agentsExists_iff _ _).mpr ⟨region, [ip],
          List.mem_singleton_self _, List.mem_singleton_self _⟩
  | cons p rest ih =>
    obtain ⟨r, ns⟩ := p
    by_cases hr : r = region
    · by_cases hn : node ∈ ns
      · have hadd : agentsAdd ((r, ns) :: rest) region node = (r, ns) :: rest := by
          simp [agentsAdd, hr, hn]
        rw [hadd, agentsExists_cons]
        simp only [Bool.or_eq_true]
        constructor
        · exact Or.inl
        · rintro (h | rfl)
          · exact h
          · exact Or.inl (List.elem_iff.mpr hn)
      · have hadd : agentsAdd ((r, ns) :: rest) region node =
            (r, ns ++ [node]) :: rest := by
          simp [agentsAdd, hr, hn]
        rw [hadd, agentsExists_cons, agentsExists_cons]
        simp only [Bool.or_eq_true, List.elem_eq_mem, List.mem_append,
          List.mem_singleton, decide_eq_true_eq]
        tauto
    · have hadd : agentsAdd ((r, ns) :: rest) region node =
          (r, ns) :: agentsAdd rest region node := by
        simp [agentsAdd, hr]
      rw [hadd, agentsExists_cons, agentsExists_cons]
      simp only [Bool.or_eq_true]
      rw [ih]
      tauto

/-- Adding a node records it. -/
theorem agentsAdd_self (rs : Regions) (region node : String) :
    agentsExists (agentsAdd rs region node) node = true :=
  (mem_agentsAdd rs region node node).mpr (Or.inr rfl)

/-- Adding a node keeps every previously recorded address recorded. -/
theorem agentsAdd_mono (rs : Regions) (region node ip : String)
    (h : agentsExists rs ip = true) :
    agentsExists (agentsAdd rs region node) ip = true :=
  (mem_agentsAdd rs region node ip).mpr (Or.inl h)

/-- An address recorded after an add was either already recorded or is
the added node. -/
theorem agentsAdd_bound (rs : Regions) (region node ip : String)
    (h : agentsExists (agentsAdd rs region node) ip = true) :
    agentsExists rs ip = true ∨ ip = node :=
  (mem_agentsAdd rs region node ip).mp h

/-- Unfolding region-wise membership over a cons cell. -/
theorem agentInRegion_cons (pr : String) (ns : List String) (rest : Regions)
    (r ip : String) :
    agentInRegion ((pr, ns) :: rest) r ip =
      ((pr == r) && ns.contains ip || agentInRegion rest r ip) := by
  simp [agentInRegion, List.any_cons]

/-- Adding a node records it under its region. -/
theorem agentsAdd_inRegion_self (rs : Regions) (region node : String) :
    agentInRegion (agentsAdd rs region node) region node = true := by
  induction rs with
  | nil => simp [agentsAdd, agentInRegion]
  | cons p rest ih =>
    obtain ⟨pr, ns⟩ := p
    by_cases hr : pr = region
    · by_cases hn : node ∈ ns
      · have hadd : agentsAdd ((pr, ns) :: rest) region node = (pr, ns) :: rest := by
          simp [agentsAdd, hr, hn]
        rw [hadd, agentInRegion_cons]
        simp [hr, hn]
      · have hadd : agentsAdd ((pr, ns) :: rest) region node =
            (pr, ns ++ [node]) :: rest := by
          simp [agentsAdd, hr, hn]
        rw [hadd, agentInRegion_cons]
        simp [hr]
    · have hadd : agentsAdd ((pr, ns) :: rest) region node =
          (pr, ns) :: agentsAdd rest region node := by
        simp [agentsAdd, hr]
      rw [hadd, agentInRegion_cons, ih]
      simp

/-- Adding a node keeps every region-wise membership. -/
theorem agentsAdd_inRegion_mono (rs : Regions) (region node r ip : String)
    (h : agentInRegion rs r ip = true) :
    agentInRegion (agentsAdd rs region node) r ip = true := by
  induction rs with
  | nil => simp [agentInRegion] at h
  | cons p rest ih =>
    obtain ⟨pr, ns⟩ := p
    rw [agentInRegion_cons] at h
    by_cases hr : pr = region
    · by_cases hn : node ∈ ns
      · have hadd : agentsAdd ((pr, ns) :: rest) region node = (pr, ns) :: rest := by
          simp [agentsAdd, hr, hn]
        rw [hadd, agentInRegion_cons]
        exact h
      · have hadd : agentsAdd ((pr, ns) :: rest) region node =
            (pr, ns ++ [node]) :: rest := by
          simp [agentsAdd, hr, hn]
        rw [hadd, agentInRegion_cons]
        simp only [Bool.or_eq_true, Bool.and_eq_true] at h ⊢
        rcases h with ⟨hb, hc⟩ | h
        · refine Or.inl ⟨hb, ?_⟩
          exact List.elem_iff.mpr (List.mem_append_left _ (List.elem_iff.mp hc))
        · exact Or.inr h
    · have hadd : agentsAdd ((pr, ns) :: rest) region node =
          (pr, ns) :: agentsAdd rest region node := by
        simp [agentsAdd, hr]
      rw [hadd, agentInRegion_cons]
      simp only [Bool.or_eq_true] at h ⊢
      rcases h with h | h
      · exact Or.inl h
      · exact Or.inr (ih h)

/-- The cert-fetch loop changes neither the deploy configuration, nor the
persisted topology, nor the candidate map. -/
theorem fetchCertFiles_state (env : Env) (files : List String) :
    ∀ s : RunState,
      (fetchCertFiles env s files).2.cfg = s.cfg ∧
      (fetchCertFiles env s files).2.persisted = s.persisted ∧
      (fetchCertFiles env s files).2.agentRegion = s.agentRegion := by
  induction files with
  | nil => intro s; exact ⟨rfl, rfl, rfl⟩
  | cons f rest ih =>
    intro s
    unfold fetchCertFiles
    by_cases hc : s.localFiles.contains f = true
    · rw [if_pos hc]
      exact ih s
    · rw [if_neg hc]
      dsimp only
      cases env.downloadRes (s.cfg.serverIPs.headD "") f with
      | some e => exact ⟨rfl, rfl, rfl⟩
      | none => exact ih _

/-- The cert-push phase changes neither the deploy configuration, nor the
persisted topology, nor the local files, nor the candidate map. -/
theorem pushCertFiles_state (env : Env) (s : RunState) :
    (pushCertFiles env s).2.cfg = s.cfg ∧
    (pushCertFiles env s).2.persisted = s.persisted ∧
    (pushCertFiles env s).2.agentRegion = s.agentRegion ∧
    (pushCertFiles env s).2.localFiles = s.localFiles := by
  unfold pushCertFiles
  by_cases ht : s.cfg.mq.tls = true
  · rw [if_pos ht]
    dsimp only
    refine andThen_pres
      (fun t => t.cfg = s.cfg ∧ t.persisted = s.persisted ∧
        t.agentRegion = s.agentRegion ∧ t.localFiles = s.localFiles) _ _ ?_ ?_
    · rw [sendPackageV2_snd]
      exact ⟨rfl, rfl, rfl, rfl⟩
    · intro t htp
      refine andThen_pres
        (fun t => t.cfg = s.cfg ∧ t.persisted = s.persisted ∧
          t.agentRegion = s.agentRegion ∧ t.localFiles = s.localFiles) _ _ ?_ ?_
      · rw [sendPackageV2_snd]
        exact htp
      · intro u hup
        rw [sendPackageV2_snd]
        exact hup
  · rw [if_neg ht]
    exact ⟨rfl, rfl, rfl, rfl⟩

/-- Trust-material distribution changes neither the deploy configuration,
nor the persisted topology, nor the candidate map. -/
theorem sendCerts_state (env : Env) (s : RunState) :
    (sendCerts env s).2.cfg = s.cfg ∧
    (sendCerts env s).2.persisted = s.persisted ∧
    (sendCerts env s).2.agentRegion = s.agentRegion := by
  unfold sendCerts
  refine andThen_pres
    (fun t => t.cfg = s.cfg ∧ t.persisted = s.persisted ∧
      t.agentRegion = s.agentRegion) _ _ ?_ ?_
  · exact fetchCertFiles_state env _ s
  · intro t ht
    have hp := pushCertFiles_state env t
    exact ⟨hp.1.trans ht.1, hp.2.1.trans ht.2.1, hp.2.2.1.trans ht.2.2⟩

/-- The remote write loop changes neither the deploy configuration, nor
the persisted topology, nor the local files, nor the candidate map. -/
theorem runCmdList_state (env : Env) (node : String) (cmds : List String) :
    ∀ s : RunState,
      (runCmdList env s node cmds).2.cfg = s.cfg ∧
      (runCmdList env s node cmds).2.persisted = s.persisted ∧
      (runCmdList env s node cmds).2.agentRegion = s.agentRegion ∧
      (runCmdList env s node cmds).2.localFiles = s.localFiles := by
  induction cmds with
  | nil => intro s; exact ⟨rfl, rfl, rfl, rfl⟩
  | cons c rest ih =>
    intro s
    unfold runCmdList sshCmdWithSudo
    cases env.cmdRes node c with
    | error e => exact ⟨rfl, rfl, rfl, rfl⟩
    | ok ret =>
      dsimp only
      cases retError ret with
      | error e => exact ⟨rfl, rfl, rfl, rfl⟩
      | ok u => exact ih _

/-- Provisioning a node's files changes neither the deploy configuration,
nor the persisted topology, nor the candidate map. -/
theorem agentNodeFiles_state (env : Env) (s : RunState) (region node : String) :
    (agentNodeFiles env s region node).2.cfg = s.cfg ∧
    (agentNodeFiles env s region node).2.persisted = s.persisted ∧
    (agentNodeFiles env s region node).2.agentRegion = s.agentRegion := by
  unfold agentNodeFiles
  dsimp only
  refine andThen_pres
    (fun t => t.cfg = s.cfg ∧ t.persisted = s.persisted ∧
      t.agentRegion = s.agentRegion) _ _ ?_ ?_
  · rw [wrapErr_snd, sendPackageV2_snd]
    exact ⟨rfl, rfl, rfl⟩
  · intro t ht
    refine andThen_pres
      (fun t => t.cfg = s.cfg ∧ t.persisted = s.persisted ∧
        t.agentRegion = s.agentRegion) _ _ ?_ ?_
    · have hc := sendCerts_state env t
      exact ⟨hc.1.trans ht.1, hc.2.1.trans ht.2.1, hc.2.2.trans ht.2.2⟩
    · intro u hu
      have hr := runCmdList_state env node
        [wrapEcho kcAgentService "/usr/lib/systemd/system/kc-agent.service",
         "mkdir -pv /etc/kubeclipper-agent ",
         wrapEcho (getKcAgentConfigTemplateContent u.cfg region (env.freshUUID u.uuidCtr))
           "/etc/kubeclipper-agent/kubeclipper-agent.yaml"]
        { u with uuidCtr := u.uuidCtr + 1 }
      exact ⟨hr.1.trans hu.1, hr.2.1.trans hu.2.1, hr.2.2.1.trans hu.2.2⟩

/-- The attempted topology write: persists the in-memory configuration on
success, leaves the durable copy untouched on failure. -/
theorem deployConfigWrite_spec (env : Env) (s : RunState) :
    ((deployConfigWrite env s).1 = Except.ok () →
      (deployConfigWrite env s).2.persisted = s.cfg) ∧
    (isErr (deployConfigWrite env s).1 = true →
      (deployConfigWrite env s).2.persisted = s.persisted) ∧
    (deployConfigWrite env s).2.cfg = s.cfg ∧
    (deployConfigWrite env s).2.agentRegion = s.agentRegion := by
  unfold deployConfigWrite
  dsimp only [emit]
  cases env.writeRes s.cfg with
  | some e =>
    exact ⟨fun h => Except.noConfusion h, fun _ => rfl, rfl, rfl⟩
  | none =>
    exact ⟨fun _ => rfl, fun h => Bool.noConfusion h, rfl, rfl⟩

/-- Activation: on success the node is recorded and persisted; on failure
the durable topology is untouched. -/
theorem enableAgent_spec (env : Env) (s : RunState) (region node : String) :
    ((enableAgent env s region node).1 = Except.ok () →
      (enableAgent env s region node).2.persisted =
        { s.cfg with agentRegions := agentsAdd s.cfg.agentRegions region node } ∧
      (enableAgent env s region node).2.cfg =
        { s.cfg with agentRegions := agentsAdd s.cfg.agentRegions region node }) ∧
    (isErr (enableAgent env s region node).1 = true →
      (enableAgent env s region node).2.persisted = s.persisted) ∧
    (enableAgent env s region node).2.agentRegion = s.agentRegion ∧
    ((enableAgent env s region node).2.cfg = s.cfg ∨
      (enableAgent env s region node).2.cfg =
        { s.cfg with agentRegions := agentsAdd s.cfg.agentRegions region node }) := by
  unfold enableAgent sshCmdWithSudo
  cases env.cmdRes node kcAgentEnableCmd with
  | error e =>
    dsimp only
    exact ⟨fun h => Except.noConfusion h, fun _ => rfl, rfl, Or.inl rfl⟩
  | ok ret =>
    dsimp only
    cases hret : retError ret with
    | error e =>
      exact ⟨fun h => Except.noConfusion h, fun _ => rfl, rfl, Or.inl rfl⟩
    | ok u =>
      dsimp only [emit]
      have hd := deployConfigWrite_spec env
        { cfg := { s.cfg with agentRegions := agentsAdd s.cfg.agentRegions region node }
          persisted := s.persisted
          agentRegion := s.agentRegion
          localFiles := s.localFiles
          uuidCtr := s.uuidCtr
          trace := s.trace ++ [Event.sshCmd node kcAgentEnableCmd] }
      exact ⟨fun h => ⟨hd.1 h, hd.2.2.1⟩, hd.2.1, hd.2.2.2, Or.inr hd.2.2.1⟩

/-- One node's join step: on success the node is recorded in both the
in-memory and the persisted topology; on failure the persisted topology
is untouched. -/
theorem joinOneNode_spec (env : Env) (s : RunState) (region node : String) :
    ((joinOneNode env s region node).1 = Except.ok () →
      (joinOneNode env s region node).2.persisted =
        { s.cfg with agentRegions := agentsAdd s.cfg.agentRegions region node } ∧
      (joinOneNode env s region node).2.cfg =
        (joinOneNode env s region node).2.persisted) ∧
    (isErr (joinOneNode env s region node).1 = true →
      (joinOneNode env s region node).2.persisted = s.persisted) ∧
    (joinOneNode env s region node).2.agentRegion = s.agentRegion ∧
    ((joinOneNode env s region node).2.cfg = s.cfg ∨
      (joinOneNode env s region node).2.cfg =
        { s.cfg with agentRegions := agentsAdd s.cfg.agentRegions region node }) := by
  unfold joinOneNode
  have ha := agentNodeFiles_state env s region node
  cases hf : (agentNodeFiles env s region node).1 with
  | error e =>
    rw [andThen_err _ _ e hf]
    exact ⟨fun h => Except.noConfusion h, fun _ => ha.2.1, ha.2.2, Or.inl ha.1⟩
  | ok u =>
    have hf' : (agentNodeFiles env s region node).1 = Except.ok () := hf
    rw [andThen_ok _ _ hf']
    have he := enableAgent_spec env (agentNodeFiles env s region node).2 region node
    rw [ha.1, ha.2.1, ha.2.2] at he
    exact ⟨fun h => ⟨(he.1 h).1, ((he.1 h).2).trans ((he.1 h).1).symm⟩,
      he.2.1, he.2.2.1, he.2.2.2⟩

/-- Unfolding equation of the per-node loop. -/
theorem processNodes_cons (env : Env) (s : RunState) (region node : String)
    (rest : List (String × String)) :
    processNodes env s ((region, node) :: rest) =
      andThen (joinOneNode env s region node) fun t => processNodes env t rest :=
  rfl

/-- Appending work after a successful prefix continues from the prefix's
final state. -/
theorem processNodes_append (env : Env) (l1 l2 : List (String × String)) :
    ∀ s : RunState, (processNodes env s l1).1 = Except.ok () →
      processNodes env s (l1 ++ l2) =
        processNodes env (processNodes env s l1).2 l2 := by
  induction l1 with
  | nil => intro s _; rfl
  | cons p l1 ih =>
    obtain ⟨region, node⟩ := p
    intro s h
    rw [processNodes_cons] at h
    rw [List.cons_append, processNodes_cons, processNodes_cons]
    cases hj : (joinOneNode env s region node).1 with
    | error e =>
      rw [andThen_err _ _ e hj] at h
      cases h
    | ok u =>
      have hj' : (joinOneNode env s region node).1 = Except.ok () := hj
      rw [andThen_ok _ _ hj'] at h
      rw [andThen_ok _ _ hj', andThen_ok _ _ hj']
      exact ih _ h

/-- A successful sequential run records and persists every processed
node, only its nodes, and keeps the persisted topology growing. -/
theorem processNodes_ok_spec (env : Env) (l : List (String × String)) :
    ∀ s : RunState, regionsGrow s.persisted s.cfg →
      (processNodes env s l).1 = Except.ok () →
      regionsGrow (processNodes env s l).2.persisted (processNodes env s l).2.cfg ∧
      regionsGrow s.persisted (processNodes env s l).2.persisted ∧
      (∀ p ∈ l,
        agentInRegion (processNodes env s l).2.persisted.agentRegions p.1 p.2 = true) ∧
      (∀ ip, agentsExists (processNodes env s l).2.persisted.agentRegions ip = true →
        agentsExists s.persisted.agentRegions ip = true ∨
        agentsExists s.cfg.agentRegions ip = true ∨ ∃ rr, (rr, ip) ∈ l) := by
  induction l with
  | nil =>
    intro s hinv _
    exact ⟨hinv, fun r ip h' => h', fun p hp => absurd hp (List.not_mem_nil p),
      fun ip h' => Or.inl h'⟩
  | cons q l ih =>
    obtain ⟨region, node⟩ := q
    intro s hinv h
    rw [processNodes_cons] at h ⊢
    have hj := joinOneNode_spec env s region node
    cases hjr : (joinOneNode env s region node).1 with
    | error e =>
      rw [andThen_err _ _ e hjr] at h
      cases h
    | ok u =>
      have hj' : (joinOneNode env s region node).1 = Except.ok () := hjr
      rw [andThen_ok _ _ hj'] at h ⊢
      obtain ⟨hpersist, hcfgeq⟩ := hj.1 hj'
      have hinv' : regionsGrow (joinOneNode env s region node).2.persisted
          (joinOneNode env s region node).2.cfg := by
        rw [hcfgeq]
        exact fun r ip h' => h'
      have hrec := ih (joinOneNode env s region node).2 hinv' h
      refine ⟨hrec.1, ?_, ?_, ?_⟩
      · intro r2 ip hip
        apply hrec.2.1
        rw [hpersist]
        exact agentsAdd_inRegion_mono _ _ _ _ _ (hinv r2 ip hip)
      · intro p hp
        rcases List.mem_cons.mp hp with rfl | hp'
        · apply hrec.2.1
          rw [hpersist]
          exact agentsAdd_inRegion_self _ _ _
        · exact hrec.2.2.1 p hp'
      · intro ip hip
        rcases hrec.2.2.2 ip hip with hterm | hterm | ⟨rr, hrr⟩
        · rw [hpersist] at hterm
          rcases agentsAdd_bound _ _ _ _ hterm with h' | rfl
          · exact Or.inr (Or.inl h')
          · exact Or.inr (Or.inr ⟨region, List.mem_cons_self _ _⟩)
        · rw [hcfgeq, hpersist] at hterm
          rcases agentsAdd_bound _ _ _ _ hterm with h' | rfl
          · exact Or.inr (Or.inl h')
          · exact Or.inr (Or.inr ⟨region, List.mem_cons_self _ _⟩)
        · exact Or.inr (Or.inr ⟨rr, List.mem_cons_of_mem _ hrr⟩)

/-- C1: when a join run's visit sequence starts with a successfully
processed prefix containing node A, after which node B (not previously
recorded and not in the prefix) fails at any stage, the run reports an
error, A is durably persisted already when B's processing starts, and the
final persisted topology contains A but not B. -/
theorem partialRun_durability (env : Env) (o : JoinOptions) (lf : List String)
    (pre : List (String × String)) (r b : String)
    (rest : List (String × String))
    (hseq : joinSequence o.agentRegion = pre ++ (r, b) :: rest)
    (hok : (processNodes env (initState o lf) pre).1 = Except.ok ())
    (hfail : isErr (joinOneNode env
      (processNodes env (initState o lf) pre).2 r b).1 = true)
    (ra a : String) (ha : (ra, a) ∈ pre)
    (hbnew : agentsExists o.deployConfig.agentRegions b = false)
    (hbpre : (pre.map Prod.snd).contains b = false) :
    isErr (RunJoinNode env (initState o lf)).1 = true ∧
    agentInRegion
      (processNodes env (initState o lf) pre).2.persisted.agentRegions ra a = true ∧
    agentInRegion
      (RunJoinNode env (initState o lf)).2.persisted.agentRegions ra a = true ∧
    agentsExists (RunJoinNode env (initState o lf)).2.persisted.agentRegions b = false := by
  have hinv : regionsGrow (initState o lf).persisted (initState o lf).cfg :=
    fun r2 ip h => h
  have hspec := processNodes_ok_spec env pre (initState o lf) hinv hok
  have hA1 : agentInRegion
      (processNodes env (initState o lf) pre).2.persisted.agentRegions ra a = true :=
    hspec.2.2.1 (ra, a) ha
  obtain ⟨e, hje⟩ : ∃ e, (joinOneNode env
      (processNodes env (initState o lf) pre).2 r b).1 = Except.error e := by
    cases hj : (joinOneNode env (processNodes env (initState o lf) pre).2 r b).1 with
    | error e2 => exact ⟨e2, rfl⟩
    | ok u =>
      rw [hj] at hfail
      cases hfail
  have hjoin := joinOneNode_spec env (processNodes env (initState o lf) pre).2 r b
  have hs2p := hjoin.2.1 hfail
  have hagent : runJoinAgentNode env (initState o lf) =
      (Except.error e,
        (joinOneNode env (processNodes env (initState o lf) pre).2 r b).2) := by
    show processNodes env (initState o lf)
        (joinSequence (initState o lf).agentRegion) = _
    have hseq2 : joinSequence (initState o lf).agentRegion =
        pre ++ (r, b) :: rest := hseq
    rw [hseq2, processNodes_append env pre ((r, b) :: rest) (initState o lf) hok,
      processNodes_cons, andThen_err _ _ e hje]
  have hrun : RunJoinNode env (initState o lf) =
      (Except.error ("join agent node failed: " ++ e),
        (joinOneNode env (processNodes env (initState o lf) pre).2 r b).2) := by
    unfold RunJoinNode
    rw [show runJoinServerNode (initState o lf) =
        (Except.ok (), initState o lf) from by
      simp [runJoinServerNode, checkServerNodes_ok]]
    dsimp only
    rw [hagent]
  rw [hrun]
  refine ⟨rfl, hA1, ?_, ?_⟩
  · dsimp only
    rw [hs2p]
    exact hA1
  · dsimp only
    rw [hs2p]
    cases hb : agentsExists
        (processNodes env (initState o lf) pre).2.persisted.agentRegions b with
    | false => rfl
    | true =>
      exfalso
      rcases hspec.2.2.2 b hb with h1 | h1 | ⟨rr, hrr⟩
      · rw [show (initState o lf).persisted = o.deployConfig from rfl,
          hbnew] at h1
        cases h1
      · rw [show (initState o lf).cfg = o.deployConfig from rfl, hbnew] at h1
        cases h1
      · have hm : b ∈ pre.map Prod.snd := List.mem_map_of_mem Prod.snd hrr
        have hc : (pre.map Prod.snd).contains b = true := List.elem_iff.mpr hm
        rw [hbpre] at hc
        cases hc

/-- C1 witness: with the activation of 2.2.2.2 failing after 1.1.1.1
joined, the concrete run errors, persists 1.1.1.1 and not 2.2.2.2. -/
theorem partialRun_durability_witness :
    isErr (RunJoinNode envFailEnable (initState optsTwo [])).1 = true ∧
    agentInRegion (RunJoinNode envFailEnable
      (initState optsTwo [])).2.persisted.agentRegions "r1" "1.1.1.1" = true ∧
    agentsExists (RunJoinNode envFailEnable
      (initState optsTwo [])).2.persisted.agentRegions "2.2.2.2" = false := by
  have h := partialRun_durability envFailEnable optsTwo []
    [("r1", "1.1.1.1")] "r1" "2.2.2.2" [] (by decide) (by decide) (by decide)
    "r1" "1.1.1.1" (by decide) (by decide) (by decide)
  exact ⟨h.1, h.2.2.1, h.2.2.2⟩

/-- Download counting distributes over trace concatenation. -/
theorem dlCount_append (p : String) (t1 t2 : List Event) :
    dlCount p (t1 ++ t2) = dlCount p t1 + dlCount p t2 := by
  simp [dlCount, List.filter_append]

/-- Appending a non-download event leaves the download potential
unchanged. -/
theorem dlPotential_emit (p : String) (s : RunState) (e : Event)
    (h : dlCount p [e] = 0) :
    dlPotential p (emit s e) = dlPotential p s := by
  simp [dlPotential, emit, dlCount_append, h]

/-- The download count of a single download event. -/
theorem dlCount_single_dl (p h src dst : String) :
    dlCount p [Event.downloadFile h src dst] = if dst = p then 1 else 0 := by
  by_cases hd : dst = p
  · simp [dlCount, List.filter, hd]
  · have hb : (dst == p) = false := beq_eq_false_iff_ne.mpr hd
    simp [dlCount, List.filter, hb, hd]

/-- A package transfer does not change the download potential. -/
theorem sendPackageV2_dl (env : Env) (s : RunState) (location : String)
    (nodes : List String) (dstDir : String) (hook : Option String) (p : String) :
    dlPotential p (sendPackageV2 env s location nodes dstDir hook).2 =
      dlPotential p s := by
  rw [sendPackageV2_snd]
  exact dlPotential_emit p s _ rfl

/-- The cert pushes do not change the download potential. -/
theorem pushCertFiles_dl (env : Env) (s : RunState) (p : String) :
    dlPotential p (pushCertFiles env s).2 = dlPotential p s := by
  unfold pushCertFiles
  by_cases ht : s.cfg.mq.tls = true
  · rw [if_pos ht]
    dsimp only
    refine andThen_pres (fun t => dlPotential p t = dlPotential p s) _ _ ?_ ?_
    · exact sendPackageV2_dl env s _ _ _ _ p
    · intro t htp
      refine andThen_pres (fun t => dlPotential p t = dlPotential p s) _ _ ?_ ?_
      · exact (sendPackageV2_dl env t _ _ _ _ p).trans htp
      · intro u hup
        exact (sendPackageV2_dl env u _ _ _ _ p).trans hup
  · rw [if_neg ht]

/-- The remote write loop does not change the download potential. -/
theorem runCmdList_dl (env : Env) (node : String) (cmds : List String)
    (p : String) :
    ∀ s : RunState, dlPotential p (runCmdList env s node cmds).2 = dlPotential p s := by
  induction cmds with
  | nil => intro s; rfl
  | cons c rest ih =>
    intro s
    unfold runCmdList sshCmdWithSudo
    cases env.cmdRes node c with
    | error e => exact dlPotential_emit p s _ rfl
    | ok ret =>
      dsimp only
      cases retError ret with
      | error e => exact dlPotential_emit p s _ rfl
      | ok u => exact (ih _).trans (dlPotential_emit p s _ rfl)

/-- An attempted topology write does not change the download potential. -/
theorem deployConfigWrite_dl (env : Env) (s : RunState) (p : String) :
    dlPotential p (deployConfigWrite env s).2 = dlPotential p s := by
  unfold deployConfigWrite
  dsimp only [emit]
  cases env.writeRes s.cfg with
  | some e => exact dlPotential_emit p s _ rfl
  | none => exact dlPotential_emit p s _ rfl

/-- Activation does not change the download potential. -/
theorem enableAgent_dl (env : Env) (s : RunState) (region node : String)
    (p : String) :
    dlPotential p (enableAgent env s region node).2 = dlPotential p s := by
  unfold enableAgent sshCmdWithSudo
  cases env.cmdRes node kcAgentEnableCmd with
  | error e => exact dlPotential_emit p s _ rfl
  | ok ret =>
    dsimp only
    cases retError ret with
    | error e => exact dlPotential_emit p s _ rfl
    | ok u => exact (deployConfigWrite_dl env _ p).trans (dlPotential_emit p s _ rfl)

/-- The fetch-if-missing loop downloads `p` at most once: on success the
potential does not increase; in any case the total download count stays
within the starting potential. -/
theorem fetchCertFiles_dl (env : Env) (p : String) (files : List String) :
    ∀ s : RunState,
      ((fetchCertFiles env s files).1 = Except.ok () →
        dlPotential p (fetchCertFiles env s files).2 ≤ dlPotential p s) ∧
      dlCount p (fetchCertFiles env s files).2.trace ≤ dlPotential p s := by
  induction files with
  | nil =>
    intro s
    exact ⟨fun _ => Nat.le_refl _, Nat.le_add_right _ _⟩
  | cons f rest ih =>
    intro s
    unfold fetchCertFiles
    by_cases hc : s.localFiles.contains f = true
    · rw [if_pos hc]
      exact ih s
    · rw [if_neg hc]
      dsimp only
      cases env.downloadRes (s.cfg.serverIPs.headD "") f with
      | some e =>
        refine ⟨fun h => Except.noConfusion h, ?_⟩
        rw [show (emit s (Event.downloadFile (s.cfg.serverIPs.headD "") f f)).trace =
            s.trace ++ [Event.downloadFile (s.cfg.serverIPs.headD "") f f] from rfl,
          dlCount_append, dlCount_single_dl]
        unfold dlPotential
        by_cases hfp : f = p
        · subst hfp
          rw [if_pos rfl, if_neg hc]
        · rw [if_neg hfp]
          omega
      | none =>
        have hstep : dlPotential p { emit s
              (Event.downloadFile (s.cfg.serverIPs.headD "") f f) with
            localFiles := s.localFiles ++ [f] } ≤ dlPotential p s := by
          unfold dlPotential
          dsimp only [emit]
          rw [dlCount_append, dlCount_single_dl]
          by_cases hfp : f = p
          · subst hfp
            have hin : (s.localFiles ++ [f]).contains f = true :=
              List.elem_iff.mpr (List.mem_append_right _ (List.mem_singleton_self f))
            rw [if_pos rfl, if_pos hin, if_neg hc]
          · have heq : (s.localFiles ++ [f]).contains p = s.localFiles.contains p := by
              by_cases hp2 : p ∈ s.localFiles
              · simp [List.elem_eq_mem, hp2]
              · have hpf : ¬p = f := fun h => hfp h.symm
                simp [List.elem_eq_mem, hp2, hpf]
            rw [if_neg hfp, heq]
            omega
        exact ⟨fun h => ((ih _).1 h).trans hstep, ((ih _).2).trans hstep⟩

/-- Composing the download bounds through Go's early-return sequencing. -/
theorem andThen_dl (p : String) (r : Except String Unit × RunState)
    (k : RunState → Except String Unit × RunState) (c : Nat)
    (hrok : r.1 = Except.ok () → dlPotential p r.2 ≤ c)
    (hrb : dlCount p r.2.trace ≤ c)
    (hkok : ∀ t, dlPotential p t ≤ c →
      (k t).1 = Except.ok () → dlPotential p (k t).2 ≤ c)
    (hkb : ∀ t, dlPotential p t ≤ c → dlCount p (k t).2.trace ≤ c) :
    ((andThen r k).1 = Except.ok () → dlPotential p (andThen r k).2 ≤ c) ∧
    dlCount p (andThen r k).2.trace ≤ c := by
  unfold andThen
  cases h : r.1 with
  | error e => exact ⟨fun hh => Except.noConfusion hh, hrb⟩
  | ok u =>
    have hok : r.1 = Except.ok () := h
    exact ⟨hkok r.2 (hrok hok), hkb r.2 (hrok hok)⟩

/-- Trust-material distribution downloads `p` at most within the starting
potential. -/
theorem sendCerts_dl (env : Env) (s : RunState) (p : String) :
    ((sendCerts env s).1 = Except.ok () →
      dlPotential p (sendCerts env s).2 ≤ dlPotential p s) ∧
    dlCount p (sendCerts env s).2.trace ≤ dlPotential p s := by
  unfold sendCerts
  refine andThen_dl p _ _ (dlPotential p s) ?_ ?_ ?_ ?_
  · exact (fetchCertFiles_dl env p _ s).1
  · exact (fetchCertFiles_dl env p _ s).2
  · intro t hpt _
    exact (pushCertFiles_dl env t p).trans_le hpt
  · intro t hpt
    calc dlCount p (pushCertFiles env t).2.trace
        ≤ dlPotential p (pushCertFiles env t).2 := Nat.le_add_right _ _
      _ = dlPotential p t := pushCertFiles_dl env t p
      _ ≤ dlPotential p s := hpt

/-- Per-node provisioning downloads `p` at most within the starting
potential. -/
theorem agentNodeFiles_dl (env : Env) (s : RunState) (region node : String)
    (p : String) :
    ((agentNodeFiles env s region node).1 = Except.ok () →
      dlPotential p (agentNodeFiles env s region node).2 ≤ dlPotential p s) ∧
    dlCount p (agentNodeFiles env s region node).2.trace ≤ dlPotential p s := by
  unfold agentNodeFiles
  dsimp only
  refine andThen_dl p _ _ (dlPotential p s) ?_ ?_ ?_ ?_
  · intro _
    rw [wrapErr_snd]
    exact le_of_eq (sendPackageV2_dl env s _ _ _ _ p)
  · rw [wrapErr_snd, sendPackageV2_snd]
    calc dlCount p (emit s (Event.sendPackage s.cfg.pkg [node] defaultPkgPath
          (some (agentInstallHook s.cfg.pkg)))).trace
        ≤ dlPotential p (emit s (Event.sendPackage s.cfg.pkg [node] defaultPkgPath
          (some (agentInstallHook s.cfg.pkg)))) := Nat.le_add_right _ _
      _ = dlPotential p s := dlPotential_emit p s _ rfl
  · intro t hpt hok
    refine (andThen_dl p (sendCerts env t) _ (dlPotential p s) ?_ ?_ ?_ ?_).1 hok
    · exact fun h2 => ((sendCerts_dl env t p).1 h2).trans hpt
    · exact ((sendCerts_dl env t p).2).trans hpt
    · intro u hu _
      exact (runCmdList_dl env node _ p _).trans_le hu
    · intro u hu
      calc dlCount p (runCmdList env { u with uuidCtr := u.uuidCtr + 1 } node _).2.trace
          ≤ dlPotential p (runCmdList env { u with uuidCtr := u.uuidCtr + 1 } node _).2 :=
            Nat.le_add_right _ _
        _ = dlPotential p { u with uuidCtr := u.uuidCtr + 1 } := runCmdList_dl env node _ p _
        _ ≤ dlPotential p s := hu
  · intro t hpt
    refine (andThen_dl p (sendCerts env t) _ (dlPotential p s) ?_ ?_ ?_ ?_).2
    · exact fun h2 => ((sendCerts_dl env t p).1 h2).trans hpt
    · exact ((sendCerts_dl env t p).2).trans hpt
    · intro u hu _
      exact (runCmdList_dl env node _ p _).trans_le hu
    · intro u hu
      calc dlCount p (runCmdList env { u with uuidCtr := u.uuidCtr + 1 } node _).2.trace
          ≤ dlPotential p (runCmdList env { u with uuidCtr := u.uuidCtr + 1 } node _).2 :=
            Nat.le_add_right _ _
        _ = dlPotential p { u with uuidCtr := u.uuidCtr + 1 } := runCmdList_dl env node _ p _
        _ ≤ dlPotential p s := hu

/-- One node's join step downloads `p` at most within the starting
potential. -/
theorem joinOneNode_dl (env : Env) (s : RunState) (region node : String)
    (p : String) :
    ((joinOneNode env s region node).1 = Except.ok () →
      dlPotential p (joinOneNode env s region node).2 ≤ dlPotential p s) ∧
    dlCount p (joinOneNode env s region node).2.trace ≤ dlPotential p s := by
  unfold joinOneNode
  refine andThen_dl p _ _ (dlPotential p s) ?_ ?_ ?_ ?_
  · exact (agentNodeFiles_dl env s region node p).1
  · exact (agentNodeFiles_dl env s region node p).2
  · intro t hpt _
    exact (enableAgent_dl env t region node p).trans_le hpt
  · intro t hpt
    calc dlCount p (enableAgent env t region node).2.trace
        ≤ dlPotential p (enableAgent env t region node).2 := Nat.le_add_right _ _
      _ = dlPotential p t := enableAgent_dl env t region node p
      _ ≤ dlPotential p s := hpt

/-- The whole sequential run downloads `p` at most within the starting
potential. -/
theorem processNodes_dl (env : Env) (p : String) (l : List (String × String)) :
    ∀ s : RunState,
      ((processNodes env s l).1 = Except.ok () →
        dlPotential p (processNodes env s l).2 ≤ dlPotential p s) ∧
      dlCount p (processNodes env s l).2.trace ≤ dlPotential p s := by
  induction l with
  | nil =>
    intro s
    exact ⟨fun _ => Nat.le_refl _, Nat.le_add_right _ _⟩
  | cons q rest ih =>
    obtain ⟨region, node⟩ := q
    intro s
    rw [processNodes_cons]
    refine andThen_dl p _ _ (dlPotential p s) ?_ ?_ ?_ ?_
    · exact (joinOneNode_dl env s region node p).1
    · exact (joinOneNode_dl env s region node p).2
    · intro t hpt hok
      exact ((ih t).1 hok).trans hpt
    · intro t hpt
      exact ((ih t).2).trans hpt

/-- A preflight membership/liveness check does not change the download
potential. -/
theorem preCheckKcAgent_dl (env : Env) (s : RunState) (ip p : String) :
    dlPotential p (preCheckKcAgent env s ip).2 = dlPotential p s := by
  rcases preCheckKcAgent_snd env s ip with h | h <;> rw [h]
  exact dlPotential_emit p s _ rfl

/-- The preflight loop does not change the download potential. -/
theorem preCheckAgents_dl (env : Env) (l : List String) (p : String) :
    ∀ s : RunState,
      dlPotential p (preCheckAgents env s l).2 = dlPotential p s := by
  induction l with
  | nil => intro s; rfl
  | cons a rest ih =>
    intro s
    have hd := preCheckKcAgent_dl env s a p
    unfold preCheckAgents
    cases hpk : preCheckKcAgent env s a with
    | mk b s2 =>
      rw [hpk] at hd
      cases b with
      | false => exact hd
      | true => exact (ih s2).trans hd

/-- Appending an event keeps a trace-wide property when the event has
it. -/
theorem allOK_emit (Q : Event → Bool) (s : RunState) (e : Event)
    (ht : s.trace.all Q = true) (he : Q e = true) :
    (emit s e).trace.all Q = true := by
  simp [emit, List.all_append, ht, he]

/-- The cert-fetch loop emits only events allowed by `eventOK`: its
downloads come from the first control-plane address. -/
theorem fetchCertFiles_ev (env : Env) (c : DeployConfig) (files : List String) :
    ∀ s : RunState, s.cfg.serverIPs = c.serverIPs →
      s.trace.all (eventOK c) = true →
      (fetchCertFiles env s files).2.trace.all (eventOK c) = true := by
  induction files with
  | nil => intro s _ ht; exact ht
  | cons f rest ih =>
    intro s hsrv ht
    unfold fetchCertFiles
    by_cases hc2 : s.localFiles.contains f = true
    · rw [if_pos hc2]
      exact ih s hsrv ht
    · rw [if_neg hc2]
      dsimp only
      have hev : eventOK c (Event.downloadFile (s.cfg.serverIPs.headD "") f f) = true := by
        simp [eventOK, hsrv]
      cases env.downloadRes (s.cfg.serverIPs.headD "") f with
      | some e => exact allOK_emit _ s _ ht hev
      | none => exact ih _ hsrv (allOK_emit _ s _ ht hev)

/-- The cert pushes emit only events allowed by `eventOK`: they occur
only under MQ TLS. -/
theorem pushCertFiles_ev (env : Env) (c : DeployConfig) (s : RunState)
    (hmq : s.cfg.mq = c.mq)
    (ht : s.trace.all (eventOK c) = true) :
    (pushCertFiles env s).2.trace.all (eventOK c) = true := by
  unfold pushCertFiles
  by_cases htls : s.cfg.mq.tls = true
  · rw [if_pos htls]
    dsimp only
    have hev : ∀ l ns d, eventOK c (Event.sendPackage l ns d none) = true := by
      intro l ns d
      simp [eventOK, ← hmq, htls]
    refine andThen_pres (fun t => t.trace.all (eventOK c) = true) _ _ ?_ ?_
    · rw [sendPackageV2_snd]
      exact allOK_emit _ s _ ht (hev _ _ _)
    · intro t ht2
      refine andThen_pres (fun t => t.trace.all (eventOK c) = true) _ _ ?_ ?_
      · rw [sendPackageV2_snd]
        exact allOK_emit _ t _ ht2 (hev _ _ _)
      · intro u hu
        rw [sendPackageV2_snd]
        exact allOK_emit _ u _ hu (hev _ _ _)
  · rw [if_neg htls]
    exact ht

/-- Trust-material distribution emits only events allowed by `eventOK`. -/
theorem sendCerts_ev (env : Env) (c : DeployConfig) (s : RunState)
    (h : s.cfg.serverIPs = c.serverIPs ∧ s.cfg.mq = c.mq ∧
      s.trace.all (eventOK c) = true) :
    (sendCerts env s).2.cfg.serverIPs = c.serverIPs ∧
    (sendCerts env s).2.cfg.mq = c.mq ∧
    (sendCerts env s).2.trace.all (eventOK c) = true := by
  unfold sendCerts
  refine andThen_pres
    (fun t => t.cfg.serverIPs = c.serverIPs ∧ t.cfg.mq = c.mq ∧
      t.trace.all (eventOK c) = true) _ _ ?_ ?_
  · have hst := fetchCertFiles_state env
      [s.cfg.mq.ca, s.cfg.mq.clientCert, s.cfg.mq.clientKey] s
    refine ⟨?_, ?_, fetchCertFiles_ev env c _ s h.1 h.2.2⟩
    · rw [hst.1]; exact h.1
    · rw [hst.1]; exact h.2.1
  · intro t ht
    have hst := pushCertFiles_state env t
    refine ⟨?_, ?_, pushCertFiles_ev env c t ht.2.1 ht.2.2⟩
    · rw [hst.1]; exact ht.1
    · rw [hst.1]; exact ht.2.1

/-- The remote write loop emits only remote commands. -/
theorem runCmdList_ev (env : Env) (c : DeployConfig) (node : String)
    (cmds : List String) :
    ∀ s : RunState, s.trace.all (eventOK c) = true →
      (runCmdList env s node cmds).2.trace.all (eventOK c) = true := by
  induction cmds with
  | nil => intro s ht; exact ht
  | cons cmd rest ih =>
    intro s ht
    unfold runCmdList sshCmdWithSudo
    cases env.cmdRes node cmd with
    | error e => exact allOK_emit _ s _ ht rfl
    | ok ret =>
      dsimp only
      cases retError ret with
      | error e => exact allOK_emit _ s _ ht rfl
      | ok u => exact ih _ (allOK_emit _ s _ ht rfl)

/-- Per-node provisioning emits only events allowed by `eventOK`. -/
theorem agentNodeFiles_ev (env : Env) (c : DeployConfig) (s : RunState)
    (region node : String)
    (h : s.cfg.serverIPs = c.serverIPs ∧ s.cfg.mq = c.mq ∧
      s.trace.all (eventOK c) = true) :
    (agentNodeFiles env s region node).2.cfg.serverIPs = c.serverIPs ∧
    (agentNodeFiles env s region node).2.cfg.mq = c.mq ∧
    (agentNodeFiles env s region node).2.trace.all (eventOK c) = true := by
  unfold agentNodeFiles
  dsimp only
  refine andThen_pres
    (fun t => t.cfg.serverIPs = c.serverIPs ∧ t.cfg.mq = c.mq ∧
      t.trace.all (eventOK c) = true) _ _ ?_ ?_
  · rw [wrapErr_snd, sendPackageV2_snd]
    exact ⟨h.1, h.2.1, allOK_emit _ s _ h.2.2 rfl⟩
  · intro t ht
    refine andThen_pres
      (fun t => t.cfg.serverIPs = c.serverIPs ∧ t.cfg.mq = c.mq ∧
        t.trace.all (eventOK c) = true) _ _ ?_ ?_
    · exact sendCerts_ev env c t ht
    · intro u hu
      have hst := runCmdList_state env node
        [wrapEcho kcAgentService "/usr/lib/systemd/system/kc-agent.service",
         "mkdir -pv /etc/kubeclipper-agent ",
         wrapEcho (getKcAgentConfigTemplateContent u.cfg region (env.freshUUID u.uuidCtr))
           "/etc/kubeclipper-agent/kubeclipper-agent.yaml"]
        { u with uuidCtr := u.uuidCtr + 1 }
      refine ⟨?_, ?_, runCmdList_ev env c node _ _ hu.2.2⟩
      · rw [hst.1]; exact hu.1
      · rw [hst.1]; exact hu.2.1

/-- An attempted topology write emits only its persist event. -/
theorem deployConfigWrite_ev (env : Env) (c : DeployConfig) (s : RunState)
    (ht : s.trace.all (eventOK c) = true) :
    (deployConfigWrite env s).2.trace.all (eventOK c) = true := by
  unfold deployConfigWrite
  dsimp only [emit]
  cases env.writeRes s.cfg with
  | some e => exact allOK_emit _ s _ ht rfl
  | none => exact allOK_emit _ s _ ht rfl

/-- Activation emits only events allowed by `eventOK` and keeps the
server list and broker configuration. -/
theorem enableAgent_ev (env : Env) (c : DeployConfig) (s : RunState)
    (region node : String)
    (h : s.cfg.serverIPs = c.serverIPs ∧ s.cfg.mq = c.mq ∧
      s.trace.all (eventOK c) = true) :
    (enableAgent env s region node).2.cfg.serverIPs = c.serverIPs ∧
    (enableAgent env s region node).2.cfg.mq = c.mq ∧
    (enableAgent env s region node).2.trace.all (eventOK c) = true := by
  have hsp := enableAgent_spec env s region node
  have htr : (enableAgent env s region node).2.trace.all (eventOK c) = true := by
    unfold enableAgent sshCmdWithSudo
    cases env.cmdRes node kcAgentEnableCmd with
    | error e => exact allOK_emit _ s _ h.2.2 rfl
    | ok ret =>
      dsimp only
      cases retError ret with
      | error e => exact allOK_emit _ s _ h.2.2 rfl
      | ok u => exact deployConfigWrite_ev env c _ (allOK_emit _ s _ h.2.2 rfl)
  rcases hsp.2.2.2 with hcfg | hcfg <;> rw [hcfg]
  · exact ⟨h.1, h.2.1, htr⟩
  · exact ⟨h.1, h.2.1, htr⟩

/-- One node's join step emits only events allowed by `eventOK`. -/
theorem joinOneNode_ev (env : Env) (c : DeployConfig) (s : RunState)
    (region node : String)
    (h : s.cfg.serverIPs = c.serverIPs ∧ s.cfg.mq = c.mq ∧
      s.trace.all (eventOK c) = true) :
    (joinOneNode env s region node).2.cfg.serverIPs = c.serverIPs ∧
    (joinOneNode env s region node).2.cfg.mq = c.mq ∧
    (joinOneNode env s region node).2.trace.all (eventOK c) = true := by
  unfold joinOneNode
  refine andThen_pres
    (fun t => t.cfg.serverIPs = c.serverIPs ∧ t.cfg.mq = c.mq ∧
      t.trace.all (eventOK c) = true) _ _ ?_ ?_
  · exact agentNodeFiles_ev env c s region node h
  · intro t ht
    exact enableAgent_ev env c t region node ht

/-- The whole sequential run emits only events allowed by `eventOK`. -/
theorem processNodes_ev (env : Env) (c : DeployConfig)
    (l : List (String × String)) :
    ∀ s : RunState,
      s.cfg.serverIPs = c.serverIPs ∧ s.cfg.mq = c.mq ∧
        s.trace.all (eventOK c) = true →
      (processNodes env s l).2.cfg.serverIPs = c.serverIPs ∧
      (processNodes env s l).2.cfg.mq = c.mq ∧
      (processNodes env s l).2.trace.all (eventOK c) = true := by
  induction l with
  | nil => intro s h; exact h
  | cons q rest ih =>
    obtain ⟨region, node⟩ := q
    intro s h
    rw [processNodes_cons]
    refine andThen_pres
      (fun t => t.cfg.serverIPs = c.serverIPs ∧ t.cfg.mq = c.mq ∧
        t.trace.all (eventOK c) = true) _ _ ?_ ?_
    · exact joinOneNode_ev env c s region node h
    · intro t ht
      exact ih t ht

/-- The preflight loop emits only probe commands, hence only events
allowed by `eventOK`. -/
theorem preCheckAgents_ev (env : Env) (c : DeployConfig) (l : List String) :
    ∀ s : RunState, s.trace.all (eventOK c) = true →
      (preCheckAgents env s l).2.trace.all (eventOK c) = true := by
  induction l with
  | nil => intro s ht; exact ht
  | cons a rest ih =>
    intro s ht
    have hsnd := preCheckKcAgent_snd env s a
    unfold preCheckAgents
    cases hpk : preCheckKcAgent env s a with
    | mk b s2 =>
      rw [hpk] at hsnd
      have ht2 : s2.trace.all (eventOK c) = true := by
        rcases hsnd with hh | hh
        · have hh2 : s2 = s := hh
          rw [hh2]
          exact ht
        · have hh2 : s2 = emit s (Event.sshCmd a kcAgentProbeCmd) := hh
          rw [hh2]
          exact allOK_emit _ s _ ht rfl
      cases b with
      | false => exact ht2
      | true => exact ih s2 ht2

/-- Persist snapshots distribute over trace concatenation. -/
theorem persistCfgs_append (t1 t2 : List Event) :
    persistCfgs (t1 ++ t2) = persistCfgs t1 ++ persistCfgs t2 := by
  simp [persistCfgs, List.filterMap_append]

/-- `frameMatch` as field-wise equations. -/
theorem frameMatch_iff (init c : DeployConfig) :
    frameMatch init c ↔
      (c.serverIPs = init.serverIPs ∧ c.mq = init.mq ∧ c.opLog = init.opLog ∧
        c.pkg = init.pkg ∧ c.debug = init.debug ∧
        c.staticServerPort = init.staticServerPort) := by
  unfold frameMatch
  constructor
  · intro h
    rw [h]
    exact ⟨rfl, rfl, rfl, rfl, rfl, rfl⟩
  · rintro ⟨h1, h2, h3, h4, h5, h6⟩
    cases c
    cases init
    simp_all

/-- Appending a non-persist event keeps the persistence invariant. -/
theorem persistInv_emit (init : DeployConfig) (s : RunState) (e : Event)
    (he : persistCfgs [e] = []) (h : persistInv init s) :
    persistInv init (emit s e) := by
  unfold persistInv lastPersisted at h ⊢
  rw [show (emit s e).trace = s.trace ++ [e] from rfl, persistCfgs_append, he,
    List.append_nil]
  exact h

/-- The last element of a cons via the tail's last element. -/
theorem lastP_cons (a : DeployConfig) :
    ∀ l : List DeployConfig, (a :: l).getLast? = some ((l.getLast?).getD a) := by
  intro l
  induction l generalizing a with
  | nil => rfl
  | cons b l ih =>
    rw [List.getLast?_cons_cons, ih b]
    simp

/-- Extending a growth chain by one element related to its last. -/
theorem chain_extend (init x : DeployConfig) (ps : List DeployConfig)
    (h1 : List.Chain' regionsGrow (init :: ps))
    (h2 : regionsGrow ((ps.getLast?).getD init) x) :
    List.Chain' regionsGrow ((init :: ps) ++ [x]) := by
  rw [List.chain'_append]
  refine ⟨h1, List.chain'_singleton _, ?_⟩
  intro a ha b hb
  rw [lastP_cons, Option.mem_def, Option.some.injEq] at ha
  rw [List.head?_cons, Option.mem_def, Option.some.injEq] at hb
  rw [← ha, ← hb]
  exact h2

/-- An attempted topology write keeps the persistence invariant. -/
theorem deployConfigWrite_pinv (env : Env) (init : DeployConfig) (s : RunState)
    (h : persistInv init s) : persistInv init (deployConfigWrite env s).2 := by
  obtain ⟨hch, hfr, hcf, hgr⟩ := h
  have hpc : persistCfgs (s.trace ++ [Event.persistTopology s.cfg]) =
      persistCfgs s.trace ++ [s.cfg] := by
    rw [persistCfgs_append]
    rfl
  have hnew : persistInv init
      { s with trace := s.trace ++ [Event.persistTopology s.cfg] } := by
    refine ⟨?_, ?_, hcf, ?_⟩
    · show List.Chain' regionsGrow
        (init :: persistCfgs (s.trace ++ [Event.persistTopology s.cfg]))
      rw [hpc, show init :: (persistCfgs s.trace ++ [s.cfg]) =
        (init :: persistCfgs s.trace) ++ [s.cfg] from rfl]
      exact chain_extend init s.cfg (persistCfgs s.trace) hch hgr
    · show ∀ c ∈ persistCfgs (s.trace ++ [Event.persistTopology s.cfg]),
        frameMatch init c
      rw [hpc]
      intro cc hcc
      rcases List.mem_append.mp hcc with hcc | hcc
      · exact hfr cc hcc
      · rw [List.mem_singleton.mp hcc]
        exact hcf
    · show regionsGrow
        (lastPersisted init (s.trace ++ [Event.persistTopology s.cfg])) s.cfg
      unfold lastPersisted
      rw [hpc, List.getLast?_concat]
      exact fun r ip hh => hh
  unfold deployConfigWrite
  dsimp only [emit]
  cases env.writeRes s.cfg with
  | some e => exact hnew
  | none => exact hnew

/-- Activation keeps the persistence invariant. -/
theorem enableAgent_pinv (env : Env) (init : DeployConfig) (s : RunState)
    (region node : String) (h : persistInv init s) :
    persistInv init (enableAgent env s region node).2 := by
  unfold enableAgent sshCmdWithSudo
  cases env.cmdRes node kcAgentEnableCmd with
  | error e => exact persistInv_emit init s _ rfl h
  | ok ret =>
    dsimp only
    cases retError ret with
    | error e => exact persistInv_emit init s _ rfl h
    | ok u =>
      apply deployConfigWrite_pinv
      obtain ⟨hch, hfr, hcf, hgr⟩ :=
        persistInv_emit init s (Event.sshCmd node kcAgentEnableCmd) rfl h
      refine ⟨hch, hfr, ?_, ?_⟩
      · have hfields := (frameMatch_iff init
          (emit s (Event.sshCmd node kcAgentEnableCmd)).cfg).mp hcf
        refine (frameMatch_iff _ _).mpr ?_
        exact ⟨hfields.1, hfields.2.1, hfields.2.2.1, hfields.2.2.2.1,
          hfields.2.2.2.2.1, hfields.2.2.2.2.2⟩
      · intro r2 ip hh
        exact agentsAdd_inRegion_mono _ _ _ _ _ (hgr r2 ip hh)

/-- The cert-fetch loop keeps the persistence invariant. -/
theorem fetchCertFiles_pinv (env : Env) (init : DeployConfig)
    (files : List String) :
    ∀ s : RunState, persistInv init s →
      persistInv init (fetchCertFiles env s files).2 := by
  induction files with
  | nil => intro s h; exact h
  | cons f rest ih =>
    intro s h
    unfold fetchCertFiles
    by_cases hc2 : s.localFiles.contains f = true
    · rw [if_pos hc2]
      exact ih s h
    · rw [if_neg hc2]
      dsimp only
      cases env.downloadRes (s.cfg.serverIPs.headD "") f with
      | some e => exact persistInv_emit init s _ rfl h
      | none => exact ih _ (persistInv_emit init s _ rfl h)

/-- The cert pushes keep the persistence invariant. -/
theorem pushCertFiles_pinv (env : Env) (init : DeployConfig) (s : RunState)
    (h : persistInv init s) : persistInv init (pushCertFiles env s).2 := by
  unfold pushCertFiles
  by_cases htls : s.cfg.mq.tls = true
  · rw [if_pos htls]
    dsimp only
    refine andThen_pres (fun t => persistInv init t) _ _ ?_ ?_
    · rw [sendPackageV2_snd]
      exact persistInv_emit init s _ rfl h
    · intro t ht
      refine andThen_pres (fun t => persistInv init t) _ _ ?_ ?_
      · rw [sendPackageV2_snd]
        exact persistInv_emit init t _ rfl ht
      · intro u hu
        rw [sendPackageV2_snd]
        exact persistInv_emit init u _ rfl hu
  · rw [if_neg htls]
    exact h

/-- The remote write loop keeps the persistence invariant. -/
theorem runCmdList_pinv (env : Env) (init : DeployConfig) (node : String)
    (cmds : List String) :
    ∀ s : RunState, persistInv init s →
      persistInv init (runCmdList env s node cmds).2 := by
  induction cmds with
  | nil => intro s h; exact h
  | cons c rest ih =>
    intro s h
    unfold runCmdList sshCmdWithSudo
    cases env.cmdRes node c with
    | error e => exact persistInv_emit init s _ rfl h
    | ok ret =>
      dsimp only
      cases retError ret with
      | error e => exact persistInv_emit init s _ rfl h
      | ok u => exact ih _ (persistInv_emit init s _ rfl h)

/-- Trust-material distribution keeps the persistence invariant. -/
theorem sendCerts_pinv (env : Env) (init : DeployConfig) (s : RunState)
    (h : persistInv init s) : persistInv init (sendCerts env s).2 := by
  unfold sendCerts
  refine andThen_pres (fun t => persistInv init t) _ _ ?_ ?_
  · exact fetchCertFiles_pinv env init _ s h
  · intro t ht
    exact pushCertFiles_pinv env init t ht

/-- Per-node provisioning keeps the persistence invariant. -/
theorem agentNodeFiles_pinv (env : Env) (init : DeployConfig) (s : RunState)
    (region node : String) (h : persistInv init s) :
    persistInv init (agentNodeFiles env s region node).2 := by
  unfold agentNodeFiles
  dsimp only
  refine andThen_pres (fun t => persistInv init t) _ _ ?_ ?_
  · rw [wrapErr_snd, sendPackageV2_snd]
    exact persistInv_emit init s _ rfl h
  · intro t ht
    refine andThen_pres (fun t => persistInv init t) _ _ ?_ ?_
    · exact sendCerts_pinv env init t ht
    · intro u hu
      exact runCmdList_pinv env init node _ _ hu

/-- One node's join step keeps the persistence invariant. -/
theorem joinOneNode_pinv (env : Env) (init : DeployConfig) (s : RunState)
    (region node : String) (h : persistInv init s) :
    persistInv init (joinOneNode env s region node).2 := by
  unfold joinOneNode
  refine andThen_pres (fun t => persistInv init t) _ _ ?_ ?_
  · exact agentNodeFiles_pinv env init s region node h
  · intro t ht
    exact enableAgent_pinv env init t region node ht

/-- The whole sequential run keeps the persistence invariant. -/
theorem processNodes_pinv (env : Env) (init : DeployConfig)
    (l : List (String × String)) :
    ∀ s : RunState, persistInv init s →
      persistInv init (processNodes env s l).2 := by
  induction l with
  | nil => intro s h; exact h
  | cons q rest ih =>
    obtain ⟨region, node⟩ := q
    intro s h
    rw [processNodes_cons]
    refine andThen_pres (fun t => persistInv init t) _ _ ?_ ?_
    · exact joinOneNode_pinv env init s region node h
    · intro t ht
      exact ih t ht

/-- The preflight loop keeps the persistence invariant. -/
theorem preCheckAgents_pinv (env : Env) (init : DeployConfig) (l : List String) :
    ∀ s : RunState, persistInv init s →
      persistInv init (preCheckAgents env s l).2 := by
  induction l with
  | nil => intro s h; exact h
  | cons a rest ih =>
    intro s h
    have hsnd := preCheckKcAgent_snd env s a
    unfold preCheckAgents
    cases hpk : preCheckKcAgent env s a with
    | mk b s2 =>
      rw [hpk] at hsnd
      have h2 : persistInv init s2 := by
        rcases hsnd with hh | hh
        · have hh2 : s2 = s := hh
          rw [hh2]
          exact h
        · have hh2 : s2 = emit s (Event.sshCmd a kcAgentProbeCmd) := hh
          rw [hh2]
          exact persistInv_emit init s _ rfl h
      cases b with
      | false => exact h2
      | true => exact ih s2 h2

/-- The preflight gate does not change the download potential. -/
theorem preCheck_dl (env : Env) (s : RunState) (p : String) :
    dlPotential p (preCheck env s).2 = dlPotential p s := by
  unfold preCheck
  by_cases hs : env.sudoOK = true
  · rw [if_pos hs]
    exact preCheckAgents_dl env _ p s
  · rw [if_neg hs]

/-- The preflight gate emits only events allowed by `eventOK`. -/
theorem preCheck_ev (env : Env) (c : DeployConfig) (s : RunState)
    (ht : s.trace.all (eventOK c) = true) :
    (preCheck env s).2.trace.all (eventOK c) = true := by
  unfold preCheck
  by_cases hs : env.sudoOK = true
  · rw [if_pos hs]
    exact preCheckAgents_ev env c _ s ht
  · rw [if_neg hs]
    exact ht

/-- The preflight gate keeps the persistence invariant. -/
theorem preCheck_pinv (env : Env) (init : DeployConfig) (s : RunState)
    (h : persistInv init s) : persistInv init (preCheck env s).2 := by
  unfold preCheck
  by_cases hs : env.sudoOK = true
  · rw [if_pos hs]
    exact preCheckAgents_pinv env init _ s h
  · rw [if_neg hs]
    exact h

/-- The join entry point downloads within the starting potential. -/
theorem RunJoinNode_dl (env : Env) (s : RunState) (p : String) :
    dlCount p (RunJoinNode env s).2.trace ≤ dlPotential p s := by
  have hag := (processNodes_dl env p (joinSequence s.agentRegion) s).2
  unfold RunJoinNode
  rw [show runJoinServerNode s = (Except.ok (), s) from by
    simp [runJoinServerNode, checkServerNodes_ok]]
  dsimp only
  cases hr : runJoinAgentNode env s with
  | mk res s2 =>
    have hb : dlCount p s2.trace ≤ dlPotential p s := by
      have hr2 : processNodes env s (joinSequence s.agentRegion) = (res, s2) := hr
      rw [hr2] at hag
      exact hag
    cases res with
    | error e => exact hb
    | ok u => exact hb

/-- The join entry point emits only events allowed by `eventOK`. -/
theorem RunJoinNode_ev (env : Env) (c : DeployConfig) (s : RunState)
    (h : s.cfg.serverIPs = c.serverIPs ∧ s.cfg.mq = c.mq ∧
      s.trace.all (eventOK c) = true) :
    (RunJoinNode env s).2.trace.all (eventOK c) = true := by
  have hag := (processNodes_ev env c (joinSequence s.agentRegion) s h).2.2
  unfold RunJoinNode
  rw [show runJoinServerNode s = (Except.ok (), s) from by
    simp [runJoinServerNode, checkServerNodes_ok]]
  dsimp only
  cases hr : runJoinAgentNode env s with
  | mk res s2 =>
    have hb : s2.trace.all (eventOK c) = true := by
      have hr2 : processNodes env s (joinSequence s.agentRegion) = (res, s2) := hr
      rw [hr2] at hag
      exact hag
    cases res with
    | error e => exact hb
    | ok u => exact hb

/-- The join entry point keeps the persistence invariant. -/
theorem RunJoinNode_pinv (env : Env) (init : DeployConfig) (s : RunState)
    (h : persistInv init s) : persistInv init (RunJoinNode env s).2 := by
  have hag := processNodes_pinv env init (joinSequence s.agentRegion) s h
  unfold RunJoinNode
  rw [show runJoinServerNode s = (Except.ok (), s) from by
    simp [runJoinServerNode, checkServerNodes_ok]]
  dsimp only
  cases hr : runJoinAgentNode env s with
  | mk res s2 =>
    have hb : persistInv init s2 := by
      have hr2 : processNodes env s (joinSequence s.agentRegion) = (res, s2) := hr
      rw [hr2] at hag
      exact hag
    cases res with
    | error e => exact hb
    | ok u => exact hb

/-- Download bound for the whole command. -/
theorem cmdJoinRun_dl (env : Env) (o : JoinOptions) (lf : List String)
    (p : String) :
    dlCount p (cmdJoinRun env o lf).2.trace ≤
      (if lf.contains p then 0 else 1) := by
  have hpot : dlPotential p (initState o lf) = (if lf.contains p then 0 else 1) := by
    simp [dlPotential, dlCount, initState]
  unfold cmdJoinRun
  cases hv : ValidateArgs o with
  | error e =>
    dsimp only
    simp [dlCount, initState]
  | ok u =>
    dsimp only
    cases hp : preCheck env (initState o lf) with
    | mk b s1 =>
      have hs1 : dlPotential p s1 = (if lf.contains p then 0 else 1) := by
        have h2 := preCheck_dl env (initState o lf) p
        rw [hp] at h2
        exact h2.trans hpot
      cases b with
      | false =>
        dsimp only
        calc dlCount p s1.trace ≤ dlPotential p s1 := Nat.le_add_right _ _
          _ = _ := hs1
      | true =>
        dsimp only
        cases hrj : RunJoinFunc env s1 with
        | mk r s2 =>
          have h3 := RunJoinNode_dl env s1 p
          have hrj2 : RunJoinNode env s1 = (r, s2) := hrj
          rw [hrj2] at h3
          exact h3.trans_eq hs1

/-- Event characterization for the whole command. -/
theorem cmdJoinRun_ev (env : Env) (o : JoinOptions) (lf : List String) :
    (cmdJoinRun env o lf).2.trace.all (eventOK o.deployConfig) = true := by
  unfold cmdJoinRun
  cases hv : ValidateArgs o with
  | error e => rfl
  | ok u =>
    dsimp only
    cases hp : preCheck env (initState o lf) with
    | mk b s1 =>
      have hev1 : s1.trace.all (eventOK o.deployConfig) = true := by
        have h1 := preCheck_ev env o.deployConfig (initState o lf) rfl
        rw [hp] at h1
        exact h1
      have hcfg1 : s1.cfg = o.deployConfig := by
        have h2 := preCheck_state env (initState o lf)
        rw [hp] at h2
        exact h2.2.1
      cases b with
      | false => exact hev1
      | true =>
        dsimp only
        cases hrj : RunJoinFunc env s1 with
        | mk r s2 =>
          have h3 := RunJoinNode_ev env o.deployConfig s1
            ⟨by rw [hcfg1], by rw [hcfg1], hev1⟩
          have hrj2 : RunJoinNode env s1 = (r, s2) := hrj
          rw [hrj2] at h3
          exact h3

/-- Persistence invariant for the whole command. -/
theorem cmdJoinRun_pinv (env : Env) (o : JoinOptions) (lf : List String) :
    persistInv o.deployConfig (cmdJoinRun env o lf).2 := by
  have hinit : persistInv o.deployConfig (initState o lf) := by
    refine ⟨List.chain'_singleton _, ?_, ?_, ?_⟩
    · intro c hc
      exact absurd hc (List.not_mem_nil c)
    · exact (frameMatch_iff _ _).mpr ⟨rfl, rfl, rfl, rfl, rfl, rfl⟩
    · exact fun r ip hh => hh
  unfold cmdJoinRun
  cases hv : ValidateArgs o with
  | error e => exact hinit
  | ok u =>
    dsimp only
    cases hp : preCheck env (initState o lf) with
    | mk b s1 =>
      have h1 : persistInv o.deployConfig s1 := by
        have h2 := preCheck_pinv env o.deployConfig (initState o lf) hinit
        rw [hp] at h2
        exact h2
      cases b with
      | false => exact h1
      | true =>
        dsimp only
        cases hrj : RunJoinFunc env s1 with
        | mk r s2 =>
          have h3 := RunJoinNode_pinv env o.deployConfig s1 h1
          have hrj2 : RunJoinNode env s1 = (r, s2) := hrj
          rw [hrj2] at h3
          exact h3

/-- Every event allowed by `eventOK` downloads only from the first
control-plane address. -/
theorem all_eventOK_downloadsFrom (c : DeployConfig) (t : List Event)
    (h : t.all (eventOK c) = true) :
    t.all (downloadsFrom (c.serverIPs.headD "")) = true := by
  rw [List.all_eq_true] at h ⊢
  intro e he
  have h2 := h e he
  cases e with
  | sshCmd n cmd => rfl
  | sendPackage l ns d hook => rfl
  | downloadFile hh src dst => simpa [eventOK, downloadsFrom] using h2
  | persistTopology cc => rfl

/-- With MQ TLS disabled, no event allowed by `eventOK` is a trust-material
push. -/
theorem all_eventOK_noCertPush (c : DeployConfig) (htls : c.mq.tls = false)
    (t : List Event) (h : t.all (eventOK c) = true) :
    (t.all fun e => !(isCertPush e)) = true := by
  rw [List.all_eq_true] at h ⊢
  intro e he
  have h2 := h e he
  cases e with
  | sshCmd n cmd => rfl
  | downloadFile hh src dst => rfl
  | persistTopology cc => rfl
  | sendPackage l ns d hook =>
    cases hook with
    | some hk => rfl
    | none => simp [eventOK, htls] at h2

/-- C4: in every join run, each local path — in particular the CA,
client-certificate and client-key paths — is downloaded at most once
(never, when it already exists in local storage at the start), and every
download fetches from the first control-plane address. -/
theorem certFetch_atMostOnce (env : Env) (o : JoinOptions) (lf : List String)
    (p : String) :
    dlCount p (cmdJoinRun env o lf).2.trace ≤ (if lf.contains p then 0 else 1) ∧
    (cmdJoinRun env o lf).2.trace.all
      (downloadsFrom (o.deployConfig.serverIPs.headD "")) = true :=
  ⟨cmdJoinRun_dl env o lf p,
   all_eventOK_downloadsFrom o.deployConfig _ (cmdJoinRun_ev env o lf)⟩

/-- C5 (amended): with MQ TLS disabled no trust-material push is issued —
every package transfer in the trace carries the install hook; the
fetch-if-missing of the configured cert paths is not guarded by the TLS
flag (see the counterexample). -/
theorem trustMaterial_pushOnlyWithTLS (env : Env) (o : JoinOptions)
    (lf : List String) (htls : o.deployConfig.mq.tls = false) :
    ((cmdJoinRun env o lf).2.trace.all fun e => !(isCertPush e)) = true :=
  all_eventOK_noCertPush o.deployConfig htls _ (cmdJoinRun_ev env o lf)

/-- C5 witness: the concrete TLS-disabled run issues no trust-material
push. -/
theorem trustMaterial_pushOnlyWithTLS_witness :
    ((cmdJoinRun envOK optsNoTLS []).2.trace.all fun e => !(isCertPush e)) = true :=
  trustMaterial_pushOnlyWithTLS envOK optsNoTLS [] rfl

/-- C5 counterexample: in a run with MQ TLS disabled and the CA file not
yet cached, the trust-material step still downloads the CA from the
control plane — refuting the claim that no fetch is performed when secure
transport is disabled. -/
theorem tlsDisabled_fetchStillHappens :
    optsNoTLS.deployConfig.mq.tls = false ∧
    dlCount "/root/.kc/pki/ca.crt" (cmdJoinRun envOK optsNoTLS []).2.trace = 1 := by
  decide

/-- C8: over a whole join invocation the persisted topology snapshots
grow monotonically from the loaded topology — no recorded server or agent
address is ever removed — and every snapshot agrees with the loaded
topology on all fields other than `agentRegions`. -/
theorem topologyPersist_appendOnly (env : Env) (o : JoinOptions)
    (lf : List String) :
    List.Chain' regionsGrow
      (o.deployConfig :: persistCfgs (cmdJoinRun env o lf).2.trace) ∧
    ∀ c ∈ persistCfgs (cmdJoinRun env o lf).2.trace,
      frameMatch o.deployConfig c :=
  ⟨(cmdJoinRun_pinv env o lf).1, (cmdJoinRun_pinv env o lf).2.1⟩

/-- C8 witness: the concrete two-node run's persisted snapshots form a
growing chain of frame-preserving topologies. -/
theorem topologyPersist_appendOnly_witness :
    List.Chain' regionsGrow
      (optsTwo.deployConfig :: persistCfgs (cmdJoinRun envOK optsTwo []).2.trace) ∧
    ∀ c ∈ persistCfgs (cmdJoinRun envOK optsTwo []).2.trace,
      frameMatch optsTwo.deployConfig c :=
  topologyPersist_appendOnly envOK optsTwo []

/-- The visit sequence of a cons cell of the region map. -/
theorem joinSequence_cons (p : String × List String) (rest : Regions) :
    joinSequence (p :: rest) = (p.2.map fun a => (p.1, a)) ++ joinSequence rest := by
  simp [joinSequence]

/-- Extracting one region's addresses from its tagged block. -/
theorem filterMap_regionOf (r pr : String) (ns : List String) :
    List.filterMap (fun q : String × String => if q.1 = r then some q.2 else none)
      (ns.map fun a => (pr, a)) = if pr = r then ns else [] := by
  induction ns with
  | nil => simp
  | cons a ns ih =>
    by_cases hpr : pr = r
    · subst hpr
      simp [List.filterMap_cons, ih]
    · simp [List.filterMap_cons, hpr, ih]

/-- The per-region subsequence of the visit sequence comes from the
region's buckets, in order. -/
theorem regionSeq_eq (rs : Regions) (r : String) :
    regionSeq rs r = ((rs.filter fun p => p.1 == r).map Prod.snd).flatten := by
  induction rs with
  | nil => rfl
  | cons p rest ih =>
    obtain ⟨pr, ns⟩ := p
    unfold regionSeq at ih ⊢
    rw [joinSequence_cons, List.filterMap_append, filterMap_regionOf, ih]
    by_cases hpr : pr = r
    · rw [if_pos hpr, List.filter_cons_of_pos (by simpa using hpr)]
      simp
    · rw [if_neg hpr, List.filter_cons_of_neg (by simpa using hpr)]
      simp

/-- With pairwise-distinct region keys, at most one entry matches a
key. -/
theorem filter_key_length_le_one (rs : Regions) (r : String)
    (hnd : rs.Pairwise fun a b => a.1 ≠ b.1) :
    (rs.filter fun p => p.1 == r).length ≤ 1 := by
  induction rs with
  | nil => simp
  | cons p rest ih =>
    rw [List.pairwise_cons] at hnd
    rw [List.filter_cons]
    by_cases hp : (p.1 == r) = true
    · rw [if_pos hp]
      have hrest : rest.filter (fun q => q.1 == r) = [] := by
        rw [List.filter_eq_nil_iff]
        intro q hq
        have hne : p.1 ≠ q.1 := hnd.1 q hq
        have hpr : p.1 = r := by simpa using hp
        intro hqr
        have hq1 : q.1 = r := by simpa using hqr
        exact hne (hpr.trans hq1.symm)
      rw [hrest]
      simp
    · rw [if_neg hp]
      exact ih hnd.2

/-- C6 counterexample: the same region map presented in two iteration
orders — as a Go map permits — makes the run provision the nodes in
different sequences, refuting cross-run determinism of the processing
order. -/
theorem joinOrder_not_deterministic :
    optsRegAB.agentRegion.Perm optsRegBA.agentRegion ∧
    processedNodes (runJoinAgentNode envOK (initState optsRegAB [])).2.trace ≠
      processedNodes (runJoinAgentNode envOK (initState optsRegBA [])).2.trace := by
  constructor
  · decide
  · decide

/-- C6 (amended): the visit sequence is deterministic only up to the
map's iteration order — two iteration orders of the same region map visit
the same multiset of (region, address) pairs, every region's internal
subsequence is identical, and within a region the addresses are processed
exactly in the expander's order; the interleaving across regions,
however, follows the unspecified map order. -/
theorem joinOrder_regionwise (rs1 rs2 : Regions)
    (hperm : rs1.Perm rs2)
    (hnd : rs1.Pairwise fun a b => a.1 ≠ b.1) :
    (joinSequence rs1).Perm (joinSequence rs2) ∧
    (∀ r, regionSeq rs1 r = regionSeq rs2 r) ∧
    (∀ r ns, (r, ns) ∈ rs1 → regionSeq rs1 r = ns) := by
  refine ⟨List.Perm.flatten (hperm.map _), ?_, ?_⟩
  · intro r
    rw [regionSeq_eq, regionSeq_eq]
    have hf : (rs1.filter fun p => p.1 == r).Perm (rs2.filter fun p => p.1 == r) :=
      hperm.filter _
    have hlen := filter_key_length_le_one rs1 r hnd
    rcases hl : rs1.filter (fun p => p.1 == r) with _ | ⟨x, xs⟩
    · rw [hl] at hf
      rw [hl, (List.Perm.symm hf).eq_nil]
    · rw [hl] at hf hlen
      have hxs : xs = [] := by
        cases xs with
        | nil => rfl
        | cons y ys => simp at hlen
      subst hxs
      rw [hl, List.Perm.eq_singleton (List.Perm.symm hf)]
  · intro r ns hmem
    rw [regionSeq_eq]
    have hlen := filter_key_length_le_one rs1 r hnd
    have hin : (r, ns) ∈ rs1.filter fun p => p.1 == r := by
      rw [List.mem_filter]
      exact ⟨hmem, by simp⟩
    rcases hl : rs1.filter (fun p => p.1 == r) with _ | ⟨x, xs⟩
    · rw [hl] at hin
      cases hin
    · rw [hl] at hin hlen
      have hxs : xs = [] := by
        cases xs with
        | nil => rfl
        | cons y ys => simp at hlen
      subst hxs
      have hx : x = (r, ns) := (List.mem_singleton.mp hin).symm
      rw [hl, hx]
      simp

/-- C6 witness: the two concrete iteration orders visit the same node
multiset with identical per-region subsequences. -/
theorem joinOrder_regionwise_witness :
    (joinSequence optsRegAB.agentRegion).Perm (joinSequence optsRegBA.agentRegion) ∧
    (∀ r, regionSeq optsRegAB.agentRegion r = regionSeq optsRegBA.agentRegion r) ∧
    (∀ r ns, (r, ns) ∈ optsRegAB.agentRegion →
      regionSeq optsRegAB.agentRegion r = ns) :=
  joinOrder_regionwise optsRegAB.agentRegion optsRegBA.agentRegion
    (by decide) (by decide)

end KcJoin
